import Mathlib

/-!
# clair_reporter: the ticket pipeline of `cmd/clair_reporter/main.go`

A shallow embedding of `reportClairFindings`, `loadTeamConfig` and
`featuresToJSON`, followed by the properties of the pipeline.

Conventions of the embedding.

* A Go `string` that was decoded from JSON is valid UTF-8 and is modelled by a
  Lean `String`; the separators used by the program (`/` and the backslash) are
  ASCII, so searching by character and searching by byte agree.
* A Go `map[string]string` is an association list with distinct keys
  (`GoMap`): `m[k]` is `GoMap.index`, `m[k] = v` is `GoMap.assign`.
* A `range` over a map visits the entries in an unspecified order that may
  differ from one `range` statement to the next; the order of every visit is an
  input of the embedding.
* An element of a slice of pointers (`[]*clair.Feature`,
  `[]*clair.TeamRepositories`) is an `Option`: `none` is the nil pointer that
  `json.Unmarshal` stores for a JSON `null`. Reading a field through it is a
  run-time panic.
* A run-time panic (index out of range, nil dereference) is an explicit
  outcome.
* A `reporter.Reporter` acts on the world outside the program (the issue
  tracker); the state of that world is a type parameter `W`.
-/

namespace ClairReporter

/-! ## Data model (package `clair`) -/

/-- Modelled from the spec: the declaration of `clair.Feature` is not among the
sources. The spec describes a finding with a name, a severity label and further
descriptive fields that are passed through; the further fields are kept as
(JSON key, string value) pairs in declaration order. -/
structure Feature where
  Name : String
  Severity : String
  Other : List (String × String)
  deriving DecidableEq

/-- Modelled from the spec: the declaration of `clair.KlarReport` is not among
the sources. `Vulnerabilities` lists the entries of the Go map (package name,
slice of feature pointers of the package); the keys are distinct. -/
structure KlarReport where
  Repo : String
  Vulnerabilities : List (String × List (Option Feature))
  deriving DecidableEq

/-- Modelled from the spec: the declaration of `clair.TeamRepositories` is not
among the sources; an entry of the team-mapping array. -/
structure TeamRepositories where
  Repo : String
  Team : String
  Assignee : String
  deriving DecidableEq

/-- Modelled from the spec: the declaration of `clair.JiraTicket` is not among
the sources; its fields are the ones `reportClairFindings` assigns. -/
structure JiraTicket where
  Repo : String
  Package : String
  Description : String
  DevTeam : String
  Assignee : String
  Priority : String
  Severity : String
  Version : String
  deriving DecidableEq

/-- The zero value `clair.JiraTicket{}`. -/
def JiraTicket.zero : JiraTicket :=
  { Repo := "", Package := "", Description := "", DevTeam := "", Assignee := "",
    Priority := "", Severity := "", Version := "" }

/-- The flag variables read by the pipeline (`defaultTeam`, `defaultAssignee`,
`defaultVersion`). -/
structure Flags where
  defaultTeam : String
  defaultAssignee : String
  defaultVersion : String
  deriving DecidableEq

/-- The flag defaults registered in `init`. -/
def Flags.default : Flags :=
  { defaultTeam := "Review", defaultAssignee := "", defaultVersion := "master" }

/-! ## Go maps from string to string -/

/-- A Go `map[string]string`: association list with distinct keys. -/
abbrev GoMap := List (String × String)

/-- The lookup `m[k]` of Go's comma-ok form: `none` when the key is absent. -/
def GoMap.find (m : GoMap) (k : String) : Option String :=
  match m with
  | [] => none
  | (k', v) :: rest => if k' = k then some v else GoMap.find rest k

/-- The expression `m[k]`: the zero value `""` when the key is absent. -/
def GoMap.index (m : GoMap) (k : String) : String :=
  (m.find k).getD ""

/-- The statement `m[k] = v`: replaces the value of an existing key, adds the
key otherwise. -/
def GoMap.assign (m : GoMap) (k v : String) : GoMap :=
  match m with
  | [] => [(k, v)]
  | (k', v') :: rest => if k' = k then (k, v) :: rest else (k', v') :: GoMap.assign rest k v

/-- The keys of a map. -/
def GoMap.keys (m : GoMap) : List String := m.map Prod.fst

/-! ## `strings.Index`, `strings.Count`, `strings.SplitN`, `strings.Split`, `strings.Join` -/

/-- The first occurrence of `sep` in `s`, as the text before it and the text
after it (`s[:m]` and `s[m+len(sep):]` for `m = strings.Index(s, sep)`);
`none` when `strings.Index` returns `-1`. -/
def cutAt (sep : List Char) : List Char → Option (List Char × List Char)
  | [] => if sep = [] then some ([], []) else none
  | c :: cs =>
    if sep.isPrefixOf (c :: cs) then some ([], (c :: cs).drop sep.length)
    else match cutAt sep cs with
      | none => none
      | some (a, b) => some (c :: a, b)

/-- The loop of `strings.Count` for a non-empty `sep`, with the remaining text
as the bound on the number of rounds. -/
def countLoop (sep : List Char) : Nat → List Char → Nat
  | 0, _ => 0
  | fuel + 1, s =>
    match cutAt sep s with
    | none => 0
    | some (_, rest) => countLoop sep fuel rest + 1

/-- The number of non-overlapping occurrences, `strings.Count(s, sep)`; for an
empty `sep` the number of characters plus one. -/
def Count (s sep : List Char) : Nat :=
  if sep = [] then s.length + 1 else countLoop sep s.length s

/-- The loop `for i < n` of `genSplit`: at most `k` cuts, then the rest. -/
def splitLoop (sep : List Char) : Nat → List Char → List (List Char)
  | 0, s => [s]
  | k + 1, s =>
    match cutAt sep s with
    | none => [s]
    | some (a, rest) => a :: splitLoop sep k rest

/-- The helper `explode` of package `strings`: up to `n` pieces of one character
each, the last piece holding the rest. -/
def explode (s : List Char) (n : Int) : List (List Char) :=
  let l := s.length
  let n := if n < 0 ∨ (l : Int) < n then l else n.toNat
  if n = 0 then [] else (s.take (n - 1)).map (fun c => [c]) ++ [s.drop (n - 1)]

/-- Byte length `len(s)` of the UTF-8 encoding. -/
def byteLen (s : List Char) : Nat := (s.map Char.utf8Size).sum

/-- The function `genSplit(s, sep, 0, n)` behind `strings.SplitN` and
`strings.Split`. -/
def genSplit (s sep : List Char) (n : Int) : List (List Char) :=
  if n = 0 then []
  else if sep = [] then explode s n
  else
    let n : Nat := if n < 0 then Count s sep + 1 else n.toNat
    let n : Nat := if byteLen s + 1 < n then byteLen s + 1 else n
    splitLoop sep (n - 1) s

/-- Go's `strings.SplitN(s, sep, n)`. -/
def SplitN (s sep : String) (n : Int) : List String :=
  (genSplit s.data sep.data n).map String.mk

/-- Go's `strings.Split(s, sep)`, which is `genSplit(s, sep, 0, -1)`. -/
def Split (s sep : String) : List String :=
  (genSplit s.data sep.data (-1)).map String.mk

/-- Go's `strings.Join(elems, sep)`. -/
def Join (elems : List String) (sep : String) : String :=
  match elems with
  | [] => ""
  | [a] => a
  | a :: b :: rest => a ++ sep ++ Join (b :: rest) sep

/-! ## `json.Marshal` of a feature -/

/-- The table `hex` of package `encoding/json`. -/
def hexDigit (n : Nat) : Char :=
  ("0123456789abcdef".data).getD n '0'

/-- What the string encoder of `encoding/json` (HTML escaping on, as
`json.Marshal` sets it) writes for one character: backslash and double quote
get a backslash in front, newline, carriage return and tab their letter, the
other control characters and `<`, `>`, `&` the form `\u00xx`, the separators
U+2028 and U+2029 the form `\u202x`, every other character itself. (Later
releases of Go write backspace and form feed as a backslash and a letter; no
escape other than that of the backslash contains two adjacent backslashes.) -/
def escapeChar (c : Char) : List Char :=
  if c = '\\' then ['\\', '\\']
  else if c = '"' then ['\\', '"']
  else if c = '\n' then ['\\', 'n']
  else if c = '\r' then ['\\', 'r']
  else if c = '\t' then ['\\', 't']
  else if c.toNat < 0x20 ∨ c = '<' ∨ c = '>' ∨ c = '&' then
    ['\\', 'u', '0', '0', hexDigit (c.toNat / 16), hexDigit (c.toNat % 16)]
  else if c.toNat = 0x2028 ∨ c.toNat = 0x2029 then
    ['\\', 'u', '2', '0', '2', hexDigit (c.toNat % 16)]
  else [c]

/-- A JSON string literal: the escaped characters between double quotes. -/
def encodeString (s : String) : List Char :=
  '"' :: (s.data.flatMap escapeChar ++ ['"'])

/-- The members written for the further fields: `,"key":"value"` each. -/
def encodeOther : List (String × String) → List Char
  | [] => []
  | (k, v) :: rest => ',' :: (encodeString k ++ ':' :: (encodeString v ++ encodeOther rest))

/-- The JSON object written for a feature, fields in declaration order. -/
def encodeFeature (f : Feature) : String :=
  String.mk ("\x7b\"Name\":".data ++ encodeString f.Name ++ ",\"Severity\":".data
    ++ encodeString f.Severity ++ encodeOther f.Other ++ ['\x7d'])

/-- What `json.Marshal` writes for a feature pointer: `null` for the nil
pointer, the object of the feature otherwise. -/
def encodePointer : Option Feature → String
  | none => "null"
  | some f => encodeFeature f

/-- The call `json.Marshal(f)` on a feature pointer: the encoding and a nil
error (a record of strings has no value that the encoder rejects). -/
def jsonMarshal (f : Option Feature) : Except String String :=
  .ok (encodePointer f)

/-! ## `featuresToJSON` -/

/-- The loop of `featuresToJSON`: appends `string(tmpstring)` for every feature;
the error branch is empty in the source, so a failed `json.Marshal` (nil bytes)
appends the empty string. -/
def featuresJSONLoop : List (Option Feature) → List String → List String
  | [], featuresJSON => featuresJSON
  | f :: rest, featuresJSON =>
    match jsonMarshal f with
    | .ok tmpstring => featuresJSONLoop rest (featuresJSON ++ [tmpstring])
    | .error _ => featuresJSONLoop rest (featuresJSON ++ [""])

/-- The function `featuresToJSON`: the serializations joined by two backslash
characters (the Go literal `"\\\\"`). -/
def featuresToJSON (features : List (Option Feature)) : String :=
  let featuresJSON := featuresJSONLoop features []
  Join featuresJSON "\\\\"

/-! ## `reportClairFindings` -/

/-- A `reporter.Reporter`. The call `Report(ticket)` is an effect on the world
outside the program: from the ticket and the state of that world it gives the
returned error (`none` for nil) and the new state of the world. -/
structure Reporter (W : Type) where
  Report : JiraTicket → W → Option String × W

/-- The state of a run: the variable `jiraTicket` declared before the loops,
the world the reporters act on, and the lines logged so far. -/
structure RunState (W : Type) where
  jiraTicket : JiraTicket
  world : W
  log : List String

/-- The run-time panics of the program. -/
inductive Cause where
  | indexOutOfRange
  | nilDereference
  deriving DecidableEq

/-- How a run ends: normally, or by a run-time panic, each with the state
reached. -/
inductive Outcome (W : Type) where
  | done (st : RunState W)
  | panic (cause : Cause) (st : RunState W)

/-- The state an outcome carries. -/
def Outcome.state {W : Type} : Outcome W → RunState W
  | .done st => st
  | .panic _ st => st

/-- Whether the run ended by a panic. -/
def Outcome.panicked {W : Type} : Outcome W → Bool
  | .done _ => false
  | .panic _ _ => true

/-- The panic that ended the run, if any. -/
def Outcome.cause {W : Type} : Outcome W → Option Cause
  | .done _ => none
  | .panic c _ => some c

/-- The innermost loop of `reportClairFindings` with its initialisation:
`("P2", "Sev-2")`, replaced by `("P1", "Sev-1")` at the first feature whose
severity is `"Critical"` or `"Defcon1"`, where the loop breaks. Reading
`feature.Severity` through a nil pointer panics: the result is then `none`. -/
def severityScan : List (Option Feature) → Option (String × String)
  | [] => some ("P2", "Sev-2")
  | none :: _ => none
  | some feature :: rest =>
    if feature.Severity = "Critical" ∨ feature.Severity = "Defcon1" then some ("P1", "Sev-1")
    else severityScan rest

/-- The body of the inner loop for reporter `n`, `r` and map entry `pkg`,
`vuln` (lines 74 to 103). -/
def loopBody {W : Type} (flags : Flags) (klarReport : KlarReport)
    (repositoryTeams repositoryAssignees : GoMap) (n : String) (r : Reporter W)
    (pkg : String) (vuln : List (Option Feature)) (st : RunState W) : Outcome W :=
  match (SplitN klarReport.Repo "/" 2)[1]? with
  | none => .panic .indexOutOfRange st
  | some repo =>
    let jiraTicket := { st.jiraTicket with Repo := repo }
    let jiraTicket := { jiraTicket with Package := pkg }
    match severityScan vuln with
    | none => .panic .nilDereference { st with jiraTicket := jiraTicket }
    | some (priority, severity) =>
      let jiraTicket := { jiraTicket with Description := featuresToJSON vuln }
      let devTeam := repositoryTeams.index repo
      let devTeam := if devTeam = "" then flags.defaultTeam else devTeam
      let devAssignee := repositoryAssignees.index repo
      let devAssignee := if devAssignee = "" then flags.defaultAssignee else devAssignee
      let jiraTicket := { jiraTicket with DevTeam := devTeam }
      let jiraTicket := { jiraTicket with Assignee := devAssignee }
      let jiraTicket := { jiraTicket with Priority := priority }
      let jiraTicket := { jiraTicket with Severity := severity }
      let jiraTicket := { jiraTicket with Version := flags.defaultVersion }
      match r.Report jiraTicket st.world with
      | (some err, world) =>
        .done { jiraTicket := jiraTicket, world := world,
                log := st.log ++ ["Cannot generate report with " ++ n ++ ": " ++ err] }
      | (none, world) =>
        .done { jiraTicket := jiraTicket, world := world, log := st.log }

/-- The inner loop `for pkg, vuln := range klarReport.Vulnerabilities`, over the
entries in the order of this visit. -/
def packageLoop {W : Type} (flags : Flags) (klarReport : KlarReport)
    (repositoryTeams repositoryAssignees : GoMap) (n : String) (r : Reporter W) :
    List (String × List (Option Feature)) → RunState W → Outcome W
  | [], st => .done st
  | (pkg, vuln) :: rest, st =>
    match loopBody flags klarReport repositoryTeams repositoryAssignees n r pkg vuln st with
    | .panic c st' => .panic c st'
    | .done st' => packageLoop flags klarReport repositoryTeams repositoryAssignees n r rest st'

/-- The order in which the `i`-th execution of the inner `range` statement
visits the entries of the vulnerability map. -/
abbrev RangeOrder :=
  Nat → List (String × List (Option Feature)) → List (String × List (Option Feature))

/-- A visiting order visits every entry once. -/
def RangeOrder.Valid (order : RangeOrder) : Prop :=
  ∀ i l, (order i l).Perm l

/-- The outer loop `for n, r := range reporters`, over the reporters in the
order of the visit; `i` counts the reporters already handled. -/
def reporterLoop {W : Type} (flags : Flags) (order : RangeOrder) (klarReport : KlarReport)
    (repositoryTeams repositoryAssignees : GoMap) :
    Nat → List (String × Reporter W) → RunState W → Outcome W
  | _, [], st => .done st
  | i, (n, r) :: rest, st =>
    match packageLoop flags klarReport repositoryTeams repositoryAssignees n r
        (order i klarReport.Vulnerabilities) st with
    | .panic c st' => .panic c st'
    | .done st' =>
      reporterLoop flags order klarReport repositoryTeams repositoryAssignees (i + 1) rest st'

/-- What reading and decoding the report file gives: the error of
`ioutil.ReadAll`, the value of `klarReport` after `json.Unmarshal` (the zero
value where nothing was decoded) and the error of `json.Unmarshal`. -/
structure ReportFile where
  readErr : Option String
  klarReport : KlarReport
  unmarshalErr : Option String

/-- The lines logged by the preamble of `reportClairFindings`: both errors are
only logged. -/
def preambleLog (file : ReportFile) : List String :=
  let log := match file.readErr with
    | some err => ["Cannot read json file: " ++ err]
    | none => []
  match file.unmarshalErr with
  | some err => log ++ ["Cannot deserialize json: " ++ err]
  | none => log

/-- The function `reportClairFindings`, started in the world `world`: after the
preamble every reporter is given a ticket for every package. -/
def reportClairFindings {W : Type} (flags : Flags) (order : RangeOrder) (file : ReportFile)
    (repositoryTeams repositoryAssignees : GoMap) (reporters : List (String × Reporter W))
    (world : W) : Outcome W :=
  reporterLoop flags order file.klarReport repositoryTeams repositoryAssignees 0 reporters
    { jiraTicket := JiraTicket.zero, world := world, log := preambleLog file }

/-! ## `loadTeamConfig` -/

/-- What opening, reading and decoding the team-config file gives: the error of
`ioutil.ReadAll`, the slice `teamRepositories` after `json.Unmarshal` (empty
where nothing was decoded, `none` for an element decoded from `null`) and the
error `json.Unmarshal` returned. -/
structure TeamFile where
  readErr : Option String
  teamRepositories : List (Option TeamRepositories)
  unmarshalErr : Option String

/-- The loop of `loadTeamConfig` that fills the two maps. Reading `tr.Repo`
through a nil pointer panics: the result is then `none`. -/
def teamLoop : List (Option TeamRepositories) → GoMap × GoMap → Option (GoMap × GoMap)
  | [], maps => some maps
  | none :: _, _ => none
  | some tr :: rest, (repositoryTeams, repositoryAssignees) =>
    teamLoop rest (repositoryTeams.assign tr.Repo tr.Team,
                   repositoryAssignees.assign tr.Repo tr.Assignee)

/-- How a call of `loadTeamConfig` ends: it returns the two maps and a nil
error, it returns an error, or it panics in its loop. -/
inductive Loaded where
  | maps (repositoryTeams repositoryAssignees : GoMap)
  | error (err : String)
  | panic
  deriving DecidableEq

/-- The function `loadTeamConfig`, with the flag `teamConfigFilePath` and the
file system (`osOpen`) as inputs; the result is how the call ends and the lines
logged. The value `json.Unmarshal` returns is not assigned in the source: both
tests of `err` read the error of `ioutil.ReadAll`. -/
def loadTeamConfig (teamConfigFilePath : String) (osOpen : String → Except String TeamFile) :
    Loaded × List String :=
  if teamConfigFilePath = "" then
    (.error "missing path to JSON file, pass --team-path <path to json file>", [])
  else
    match osOpen teamConfigFilePath with
    | .error err =>
      (.error ("cannot open file:" ++ teamConfigFilePath ++ " err:" ++ err), [])
    | .ok teamConfigFile =>
      let err := teamConfigFile.readErr
      let log := match err with
        | some e => ["Cannot read json file: " ++ e]
        | none => []
      let log := match err with
        | some e => log ++ ["Cannot deserialize json: " ++ e]
        | none => log
      match teamLoop teamConfigFile.teamRepositories ([], []) with
      | none => (.panic, log)
      | some (repositoryTeams, repositoryAssignees) =>
        (.maps repositoryTeams repositoryAssignees, log)

/-! ## `makeReporters` and `main` -/

/-- Modelled from the spec: package `reporter` is not among the sources. A
maker is a factory that produces a reporter or fails. -/
structure Maker (W : Type) where
  Make : Except String (Reporter W)

/-- The function `makeReporters`, with the registry lookup
`reporter.MakerByName` as input: the one reporter named `jira`. -/
def makeReporters {W : Type} (makerByName : String → Except String (Maker W)) :
    Except String (List (String × Reporter W)) :=
  let n := "jira"
  match makerByName n with
  | .error err => .error ("cannot find reporter by name \"" ++ n ++ "\": " ++ err)
  | .ok maker =>
    match maker.Make with
    | .error err => .error ("cannot create reporter by name \"" ++ n ++ "\": " ++ err)
    | .ok r => .ok [(n, r)]

/-- How the process ends: by `log.Fatalf` with a message, by the panic inside
`loadTeamConfig`, or after `reportClairFindings` with the outcome of the run. -/
inductive Exit (W : Type) where
  | fatal (msg : String)
  | loadPanic
  | ran (out : Outcome W)

/-- The function `main`, with the flags, the file system (as seen by
`loadTeamConfig` and by `os.Open` of the report), the reporter registry and the
world at the start as inputs. -/
def main {W : Type} (flags : Flags)
    (jsonVulnerabilityReportFilePath teamConfigFilePath : String)
    (osOpenTeam : String → Except String TeamFile)
    (makerByName : String → Except String (Maker W))
    (osOpenReport : String → Except String ReportFile) (order : RangeOrder) (world : W) :
    Exit W :=
  if jsonVulnerabilityReportFilePath = "" then
    .fatal "You must specify a path to the JSON file, pass --file-path <path to json file>"
  else
    match (loadTeamConfig teamConfigFilePath osOpenTeam).1 with
    | .error err => .fatal ("Cannot load team config: " ++ err)
    | .panic => .loadPanic
    | .maps repositoryTeams repositoryAssignees =>
      match makeReporters makerByName with
      | .error err => .fatal ("Cannot create requested reporters: " ++ err)
      | .ok reporters =>
        match osOpenReport jsonVulnerabilityReportFilePath with
        | .error err =>
          .fatal ("Cannot open JSON file " ++ jsonVulnerabilityReportFilePath ++ ": " ++ err)
        | .ok file =>
          .ran (reportClairFindings flags order file repositoryTeams repositoryAssignees
            reporters world)

/-- The world at the end of the process that started in `world`: unchanged
unless `reportClairFindings` ran. -/
def Exit.world {W : Type} (world : W) : Exit W → W
  | .fatal _ => world
  | .loadPanic => world
  | .ran out => out.state.world

/-- Whether the process ended by `log.Fatalf`. -/
def Exit.isFatal {W : Type} : Exit W → Bool
  | .fatal _ => true
  | .loadPanic => false
  | .ran _ => false

/-! ## Reference definitions used in the statements -/

/-- The text after the first occurrence of the character `c` (empty when `c`
does not occur). -/
def afterFirst (c : Char) : List Char → List Char
  | [] => []
  | x :: xs => if x = c then xs else afterFirst c xs

/-- The text before the first occurrence of the character `c`. -/
def beforeFirst (c : Char) : List Char → List Char
  | [] => []
  | x :: xs => if x = c then [] else x :: beforeFirst c xs

/-- The part of a repository identifier after its first `/`. -/
def repoKey (repo : String) : String := String.mk (afterFirst '/' repo.data)

/-- The resolution rule in the words of the spec: the mapping's value when the
key is present with a non-empty value, the configured default otherwise. -/
def resolve (m : GoMap) (key dflt : String) : String :=
  match m.find key with
  | some v => if v = "" then dflt else v
  | none => dflt

/-- No null entry comes before the first feature whose severity is `Critical`
or `Defcon1`; in particular a list without null entries is safe. -/
def scanSafe : List (Option Feature) → Bool
  | [] => true
  | none :: _ => false
  | some f :: rest =>
    if f.Severity = "Critical" ∨ f.Severity = "Defcon1" then true else scanSafe rest

/-- The classification in the words of the spec: `("P1", "Sev-1")` if any
feature's severity equals `Critical` or `Defcon1`, `("P2", "Sev-2")` otherwise. -/
def classify (vuln : List (Option Feature)) : String × String :=
  if vuln.any (fun x => match x with
      | some f => decide (f.Severity = "Critical" ∨ f.Severity = "Defcon1")
      | none => false)
  then ("P1", "Sev-1") else ("P2", "Sev-2")

/-- The ticket for one package, built from nothing but the package's entry, the
lookup key and the configuration. -/
def freshTicket (flags : Flags) (repositoryTeams repositoryAssignees : GoMap)
    (repo pkg : String) (vuln : List (Option Feature)) : JiraTicket :=
  { Repo := repo
    Package := pkg
    Description := featuresToJSON vuln
    DevTeam := resolve repositoryTeams repo flags.defaultTeam
    Assignee := resolve repositoryAssignees repo flags.defaultAssignee
    Priority := (classify vuln).1
    Severity := (classify vuln).2
    Version := flags.defaultVersion }

/-- The line logged for the result of a `Report` call of the reporter `n`:
none for a nil error. -/
def failLine (n : String) : Option String → List String
  | some err => ["Cannot generate report with " ++ n ++ ": " ++ err]
  | none => []

/-- One call `r.Report(ticket)` of the reporter named `n`, as its effect on the
world and on the log. -/
def invoke {W : Type} (n : String) (r : Reporter W) (ticket : JiraTicket)
    (s : W × List String) : W × List String :=
  ((r.Report ticket s.1).2, s.2 ++ failLine n (r.Report ticket s.1).1)

/-- The calls of a list (reporter name, reporter, ticket), made one after the
other. -/
def invokeAll {W : Type} :
    List (String × Reporter W × JiraTicket) → W × List String → W × List String
  | [], s => s
  | (n, r, ticket) :: rest, s => invokeAll rest (invoke n r ticket s)

/-- The rounds of the two loops in the order in which they are reached, from
the `i`-th execution of the inner `range` on: reporter name, reporter, package
name and features of every (reporter, package) pair. -/
def plan {W : Type} (order : RangeOrder) (vulnerabilities : List (String × List (Option Feature)))
    (i : Nat) (reporters : List (String × Reporter W)) :
    List (String × Reporter W × String × List (Option Feature)) :=
  (reporters.enumFrom i).flatMap (fun ir =>
    (order ir.1 vulnerabilities).map (fun e => (ir.2.1, ir.2.2, e.1, e.2)))

/-- The `Report` calls of a sequence of rounds: one call with the fresh ticket
for every round before the first round whose feature list is not safe. -/
def invocations {W : Type} (flags : Flags) (repositoryTeams repositoryAssignees : GoMap)
    (repo : String) (rounds : List (String × Reporter W × String × List (Option Feature))) :
    List (String × Reporter W × JiraTicket) :=
  (rounds.takeWhile (fun x => scanSafe x.2.2.2)).map (fun x =>
    (x.1, x.2.1, freshTicket flags repositoryTeams repositoryAssignees repo x.2.2.1 x.2.2.2))

/-- The end of a run whose identifier has a separator, with the state reached:
normal when every round was safe, the nil dereference otherwise. -/
def endWith {W : Type} (allSafe : Bool) (st : RunState W) : Outcome W :=
  if allSafe then .done st else .panic .nilDereference st

/-- A reporter named `n` whose world is the list of the calls received so far
(reporter name and ticket, oldest first); the error it returns is given by
`result` from the number of earlier calls and the ticket. -/
def recorder (n : String) (result : Nat → JiraTicket → Option String) :
    Reporter (List (String × JiraTicket)) :=
  { Report := fun ticket world => (result world.length ticket, world ++ [(n, ticket)]) }

/-- The text has no two adjacent backslashes and does not end in a backslash. -/
def Clean : List Char → Prop
  | [] => True
  | [x] => x ≠ '\\'
  | x :: y :: rest => ¬ (x = '\\' ∧ y = '\\') ∧ Clean (y :: rest)

/-- No string field of the feature contains a backslash character. -/
def Feature.NoBackslash (f : Feature) : Prop :=
  '\\' ∉ f.Name.data ∧ '\\' ∉ f.Severity.data
    ∧ ∀ kv ∈ f.Other, '\\' ∉ kv.1.data ∧ '\\' ∉ kv.2.data

instance Feature.decidableNoBackslash (f : Feature) : Decidable f.NoBackslash := by
  unfold Feature.NoBackslash
  infer_instance

/-! ## Concrete inputs -/

/-- The visiting order that follows the listing of the map. -/
def listOrder : RangeOrder := fun _ l => l

/-- The recording reporter `jira` whose `Report` always succeeds. -/
def okReporter : Reporter (List (String × JiraTicket)) := recorder "jira" (fun _ _ => none)

/-- The recording reporter `jira` whose `Report` always fails. -/
def failingReporter : Reporter (List (String × JiraTicket)) :=
  recorder "jira" (fun _ _ => some "connection refused")

/-- The recording reporter `mail` whose `Report` always succeeds. -/
def mailReporter : Reporter (List (String × JiraTicket)) := recorder "mail" (fun _ _ => none)

/-- The finding `CVE-1` of severity `Critical`. -/
def cve1 : Feature := { Name := "CVE-1", Severity := "Critical", Other := [] }

/-- A finding of severity `High`. -/
def cveHigh : Feature := { Name := "CVE-2", Severity := "High", Other := [] }

/-- A finding whose label is `critical` in lower case. -/
def cveLower : Feature := { Name := "CVE-3", Severity := "critical", Other := [] }

/-- A finding whose name contains one backslash. -/
def backslashFeature : Feature := { Name := "lib\\foo", Severity := "Low", Other := [] }

/-- The report of the end-to-end scenario: repository `acme/widgets`, package
`libfoo` with the one finding `CVE-1`. -/
def widgetsReport : KlarReport :=
  { Repo := "acme/widgets", Vulnerabilities := [("libfoo", [some cve1])] }

/-- The report file of the end-to-end scenario, read and decoded without error. -/
def widgetsFile : ReportFile :=
  { readErr := none, klarReport := widgetsReport, unmarshalErr := none }

/-- The team mapping of the end-to-end scenario. -/
def widgetsEntries : List (Option TeamRepositories) :=
  [some { Repo := "widgets", Team := "Core", Assignee := "alice" }]

/-- A report with a `Critical` package listed before a package without one. -/
def twoPackageFile : ReportFile :=
  { readErr := none
    klarReport := { Repo := "acme/widgets"
                    Vulnerabilities := [("libfoo", [some cve1]), ("libbar", [some cveHigh])] }
    unmarshalErr := none }

/-- The report decoded from
`{"Repo":"acme/widgets","Vulnerabilities":{"libfoo":[null,{"Name":"CVE-1","Severity":"Critical"}]}}`:
the first element of the feature list is the nil pointer. -/
def nullFeatureFile : ReportFile :=
  { readErr := none
    klarReport := { Repo := "acme/widgets"
                    Vulnerabilities := [("libfoo", [none, some cve1])] }
    unmarshalErr := none }

/-- The team-config file of the end-to-end scenario, read and decoded without
error. -/
def widgetsTeamFile : TeamFile :=
  { readErr := none, teamRepositories := widgetsEntries, unmarshalErr := none }

/-- A team-config file whose array names the repository `widgets` twice. -/
def duplicateTeamFile : TeamFile :=
  { readErr := none
    teamRepositories :=
      [some { Repo := "widgets", Team := "Core", Assignee := "alice" },
       some { Repo := "gadgets", Team := "Tools", Assignee := "carol" },
       some { Repo := "widgets", Team := "Platform", Assignee := "bob" },
       some { Repo := "gizmos", Team := "Edge", Assignee := "" }]
    unmarshalErr := none }

/-- The team-config file decoded from
`[{"Repo":"widgets","Team":"Core","Assignee":"alice"},null]`: the second element
of the slice is the nil pointer. -/
def nullEntryFile : TeamFile :=
  { readErr := none
    teamRepositories := [some { Repo := "widgets", Team := "Core", Assignee := "alice" }, none]
    unmarshalErr := none }

/-- A decoded report whose `Repo` member was not a string: the identifier is
left empty, the packages are decoded. -/
def untypedRepoFile : ReportFile :=
  { readErr := none
    klarReport := { Repo := "", Vulnerabilities := [("libfoo", [some cve1])] }
    unmarshalErr := some "json: cannot unmarshal number into Go struct field KlarReport.Repo of type string" }

/-- A team-config file that opens and whose content is not JSON:
`json.Unmarshal` fails and leaves the slice empty. -/
def garbledTeamFile : TeamFile :=
  { readErr := none
    teamRepositories := []
    unmarshalErr := some "invalid character 'o' in literal null (expecting 'u')" }

/-- A file system in which every path opens the garbled team-config file. -/
def garbledOpen : String → Except String TeamFile := fun _ => .ok garbledTeamFile

/-- A registry whose maker for every name produces the succeeding recorder. -/
def okRegistry : String → Except String (Maker (List (String × JiraTicket))) :=
  fun _ => .ok { Make := .ok okReporter }

/-- The team mapping whose only entry has repository `org/app` and team
`TeamX`. -/
def orgAppEntries (assignee : String) : List (Option TeamRepositories) :=
  [some { Repo := "org/app", Team := "TeamX", Assignee := assignee }]

/-- The maps that the loop of `loadTeamConfig` builds from `orgAppEntries`. -/
def orgAppTeams : GoMap := [("org/app", "TeamX")]

/-- The assignee map that the loop of `loadTeamConfig` builds from
`orgAppEntries`. -/
def orgAppAssignees (assignee : String) : GoMap := [("org/app", assignee)]

/-- A report file for the repository `org/app` with one package. -/
def orgAppFile : ReportFile :=
  { readErr := none
    klarReport := { Repo := "org/app", Vulnerabilities := [("libfoo", [some cve1])] }
    unmarshalErr := none }

/-- A report file for the repository `x/org/app` with one package. -/
def nestedOrgAppFile : ReportFile :=
  { readErr := none
    klarReport := { Repo := "x/org/app", Vulnerabilities := [("libfoo", [some cve1])] }
    unmarshalErr := none }

/-- A run state before the first round of the loops, in the empty recording
world. -/
def initialState : RunState (List (String × JiraTicket)) :=
  { jiraTicket := JiraTicket.zero, world := [], log := [] }

/-! ## Lemmas on maps -/

theorem GoMap.find_assign (m : GoMap) (k v k' : String) :
    GoMap.find (GoMap.assign m k v) k' = if k = k' then some v else GoMap.find m k' := by
  induction m with
  | nil => simp [GoMap.assign, GoMap.find]
  | cons p rest ih =>
    obtain ⟨a, b⟩ := p
    by_cases hak : a = k
    · subst hak
      by_cases hk : a = k' <;> simp [GoMap.assign, GoMap.find, hk]
    · by_cases hk : k = k'
      · subst hk
        simp [GoMap.assign, GoMap.find, hak, ih]
      · by_cases hak' : a = k'
        · subst hak'
          have hka : ¬ k = a := fun h => hak h.symm
          simp [GoMap.assign, GoMap.find, hak, hka]
        · simp [GoMap.assign, GoMap.find, hak, hak', ih, hk]

theorem GoMap.mem_keys_assign (m : GoMap) (k v k' : String) :
    k' ∈ GoMap.keys (GoMap.assign m k v) ↔ k' = k ∨ k' ∈ GoMap.keys m := by
  induction m with
  | nil => simp [GoMap.assign, GoMap.keys]
  | cons p rest ih =>
    obtain ⟨a, b⟩ := p
    by_cases hak : a = k
    · subst hak
      simp [GoMap.assign, GoMap.keys]
    · simp only [GoMap.keys] at ih
      simp only [GoMap.assign, hak, if_false, GoMap.keys, List.map_cons, List.mem_cons, ih]
      tauto

theorem GoMap.nodup_keys_assign (m : GoMap) (k v : String) (h : (GoMap.keys m).Nodup) :
    (GoMap.keys (GoMap.assign m k v)).Nodup := by
  induction m with
  | nil => simp [GoMap.assign, GoMap.keys]
  | cons p rest ih =>
    obtain ⟨a, b⟩ := p
    have h' : a ∉ GoMap.keys rest ∧ (GoMap.keys rest).Nodup := by
      simpa [GoMap.keys] using h
    by_cases hak : a = k
    · subst hak
      simpa [GoMap.assign, GoMap.keys] using h
    · have hmem := GoMap.mem_keys_assign rest k v a
      have ih' := ih h'.2
      simp only [GoMap.assign, hak, if_false]
      show (a :: GoMap.keys (GoMap.assign rest k v)).Nodup
      refine List.nodup_cons.mpr ⟨?_, ih'⟩
      rw [hmem]
      rintro (h1 | h1)
      · exact hak h1
      · exact h'.1 h1

/-- The maps after the loop of `loadTeamConfig` over entries without a nil
pointer, from arbitrary starting maps. -/
theorem teamLoop_some (es : List TeamRepositories) (t0 a0 : GoMap)
    (ht : (GoMap.keys t0).Nodup) (ha : (GoMap.keys a0).Nodup) :
    ∃ t a : GoMap, teamLoop (es.map some) (t0, a0) = some (t, a)
      ∧ (∀ k, GoMap.find t k
          = (match es.reverse.find? (fun e => e.Repo = k) with
             | some e => some e.Team
             | none => GoMap.find t0 k))
      ∧ (∀ k, GoMap.find a k
          = (match es.reverse.find? (fun e => e.Repo = k) with
             | some e => some e.Assignee
             | none => GoMap.find a0 k))
      ∧ (∀ k, k ∈ GoMap.keys t ↔ (∃ e ∈ es, e.Repo = k) ∨ k ∈ GoMap.keys t0)
      ∧ (∀ k, k ∈ GoMap.keys a ↔ (∃ e ∈ es, e.Repo = k) ∨ k ∈ GoMap.keys a0)
      ∧ (GoMap.keys t).Nodup ∧ (GoMap.keys a).Nodup := by
  induction es generalizing t0 a0 with
  | nil => exact ⟨t0, a0, rfl, by simp, by simp, by simp, by simp, ht, ha⟩
  | cons tr rest ih =>
    obtain ⟨t, a, hloop, hft, hfa, hkt, hka, hnt, hna⟩ :=
      ih (GoMap.assign t0 tr.Repo tr.Team) (GoMap.assign a0 tr.Repo tr.Assignee)
        (GoMap.nodup_keys_assign t0 _ _ ht) (GoMap.nodup_keys_assign a0 _ _ ha)
    have hex : ∀ k, (∃ e ∈ tr :: rest, e.Repo = k) ↔ k = tr.Repo ∨ ∃ e ∈ rest, e.Repo = k := by
      intro k
      constructor
      · rintro ⟨e, he, hek⟩
        rcases List.mem_cons.mp he with h' | h'
        · exact Or.inl (by rw [← hek, h'])
        · exact Or.inr ⟨e, h', hek⟩
      · rintro (h' | ⟨e, he, hek⟩)
        · exact ⟨tr, List.mem_cons_self _ _, h'.symm⟩
        · exact ⟨e, List.mem_cons_of_mem _ he, hek⟩
    refine ⟨t, a, ?_, ?_, ?_, ?_, ?_, hnt, hna⟩
    · simpa only [List.map_cons, teamLoop] using hloop
    · intro k
      rw [hft k]
      simp only [List.reverse_cons, List.find?_append]
      cases hf : List.find? (fun e => decide (e.Repo = k)) rest.reverse with
      | some e => simp
      | none =>
        by_cases hk : tr.Repo = k
        · simp [GoMap.find_assign, hk]
        · simp [GoMap.find_assign, hk]
    · intro k
      rw [hfa k]
      simp only [List.reverse_cons, List.find?_append]
      cases hf : List.find? (fun e => decide (e.Repo = k)) rest.reverse with
      | some e => simp
      | none =>
        by_cases hk : tr.Repo = k
        · simp [GoMap.find_assign, hk]
        · simp [GoMap.find_assign, hk]
    · intro k
      have h1 := GoMap.mem_keys_assign t0 tr.Repo tr.Team k
      refine Iff.trans (hkt k) ?_
      rw [hex k]
      constructor
      · rintro (h' | h')
        · exact Or.inl (Or.inr h')
        · rcases h1.mp h' with h'' | h''
          · exact Or.inl (Or.inl h'')
          · exact Or.inr h''
      · rintro ((h' | h') | h')
        · exact Or.inr (h1.mpr (Or.inl h'))
        · exact Or.inl h'
        · exact Or.inr (h1.mpr (Or.inr h'))
    · intro k
      have h1 := GoMap.mem_keys_assign a0 tr.Repo tr.Assignee k
      refine Iff.trans (hka k) ?_
      rw [hex k]
      constructor
      · rintro (h' | h')
        · exact Or.inl (Or.inr h')
        · rcases h1.mp h' with h'' | h''
          · exact Or.inl (Or.inl h'')
          · exact Or.inr h''
      · rintro ((h' | h') | h')
        · exact Or.inr (h1.mpr (Or.inl h'))
        · exact Or.inl h'
        · exact Or.inr (h1.mpr (Or.inr h'))

/-- A nil pointer among the entries makes the loop of `loadTeamConfig` panic. -/
theorem teamLoop_none (entries : List (Option TeamRepositories)) (maps : GoMap × GoMap)
    (h : none ∈ entries) : teamLoop entries maps = none := by
  induction entries generalizing maps with
  | nil => simp at h
  | cons x rest ih =>
    obtain ⟨t0, a0⟩ := maps
    cases x with
    | none => rfl
    | some tr =>
      have h' : none ∈ rest := by simpa using h
      simp only [teamLoop]
      exact ih _ h'

theorem eq_map_some {α : Type} (l : List (Option α)) (h : none ∉ l) :
    ∃ es : List α, l = es.map some := by
  induction l with
  | nil => exact ⟨[], rfl⟩
  | cons x rest ih =>
    have hrest : none ∉ rest := fun e => h (List.mem_cons_of_mem _ e)
    obtain ⟨es, hes⟩ := ih hrest
    cases x with
    | none => exact absurd (List.mem_cons_self _ _) h
    | some a => exact ⟨a :: es, by rw [hes]; rfl⟩

theorem find_reverse_last (front back : List TeamRepositories) (e : TeamRepositories)
    (hback : ∀ e' ∈ back, e'.Repo ≠ e.Repo) :
    (front ++ e :: back).reverse.find? (fun x => x.Repo = e.Repo) = some e := by
  have hnone : back.reverse.find? (fun x => decide (x.Repo = e.Repo)) = none := by
    rw [List.find?_eq_none]
    intro x hx
    have := hback x (List.mem_reverse.mp hx)
    simpa using this
  simp only [List.reverse_append, List.reverse_cons, List.find?_append, List.append_assoc,
    hnone]
  simp

/-! ## Lemmas on `strings.SplitN` with the separator `/` -/

theorem cutAt_single (c : Char) (s : List Char) :
    cutAt [c] s = if c ∈ s then some (beforeFirst c s, afterFirst c s) else none := by
  induction s with
  | nil => simp [cutAt]
  | cons x xs ih =>
    by_cases hx : x = c
    · subst hx
      simp [cutAt, List.isPrefixOf, beforeFirst, afterFirst]
    · have hcx : ¬ c = x := fun h => hx h.symm
      by_cases hmem : c ∈ xs
      · simp [cutAt, List.isPrefixOf, beforeFirst, afterFirst, hx, hcx, ih, hmem]
      · simp [cutAt, List.isPrefixOf, beforeFirst, afterFirst, hx, hcx, ih, hmem]

theorem byteLen_cons_pos (x : Char) (xs : List Char) : 0 < byteLen (x :: xs) := by
  have h := Char.utf8Size_pos x
  simp only [byteLen, List.map_cons, List.sum_cons]
  omega

theorem genSplit_slash (s : List Char) :
    genSplit s ['/'] 2
      = if '/' ∈ s then [beforeFirst '/' s, afterFirst '/' s] else [s] := by
  cases s with
  | nil => simp [genSplit, byteLen, splitLoop]
  | cons x xs =>
    have hpos := byteLen_cons_pos x xs
    have hn : ¬ (byteLen (x :: xs) + 1 < 2) := by omega
    have h2 : (2 : Int).toNat = 2 := rfl
    simp only [genSplit, h2]
    simp only [show ((2 : Int) = 0) = False from by simp, if_false,
      show (['/'] = ([] : List Char)) = False from by simp,
      show ((2 : Int) < 0) = False from by simp]
    rw [if_neg hn]
    show splitLoop ['/'] 1 (x :: xs) = _
    simp only [splitLoop, cutAt_single]
    by_cases hmem : '/' ∈ x :: xs
    · simp only [hmem, if_true]
    · simp only [hmem, if_false]

theorem SplitN_slash_index (repo : String) :
    (SplitN repo "/" 2)[1]? = if '/' ∈ repo.data then some (repoKey repo) else none := by
  have h : SplitN repo "/" 2 = (genSplit repo.data ['/'] 2).map String.mk := rfl
  rw [h, genSplit_slash]
  by_cases hmem : '/' ∈ repo.data
  · simp [hmem, repoKey]
  · simp [hmem]

theorem afterFirst_append (c : Char) (pre post : List Char) (h : c ∉ pre) :
    afterFirst c (pre ++ c :: post) = post := by
  induction pre with
  | nil => simp [afterFirst]
  | cons x xs ih =>
    have hx : ¬ x = c := fun e => h (by simp [e])
    have hxs : c ∉ xs := fun e => h (List.mem_cons_of_mem _ e)
    simp [afterFirst, hx, ih hxs]

theorem repoKey_append (pre post : String) (h : '/' ∉ pre.data) :
    repoKey (pre ++ "/" ++ post) = post := by
  have hd : (pre ++ "/" ++ post).data = pre.data ++ '/' :: post.data := by
    simp [String.data_append]
  simp only [repoKey, hd, afterFirst_append '/' pre.data post.data h]

theorem mem_data_append (pre post : String) : '/' ∈ (pre ++ "/" ++ post).data := by
  simp [String.data_append]

/-! ## Lemmas on the severity scan -/

theorem resolve_eq (m : GoMap) (key dflt : String) :
    (if GoMap.index m key = "" then dflt else GoMap.index m key) = resolve m key dflt := by
  unfold GoMap.index resolve
  cases h : GoMap.find m key with
  | none => simp
  | some v => simp

theorem scanSafe_of_no_nil (vuln : List (Option Feature)) (h : none ∉ vuln) :
    scanSafe vuln = true := by
  induction vuln with
  | nil => rfl
  | cons x rest ih =>
    have hrest : none ∉ rest := fun e => h (List.mem_cons_of_mem _ e)
    cases x with
    | none => exact absurd (List.mem_cons_self _ _) h
    | some f =>
      simp only [scanSafe]
      split
      · rfl
      · exact ih hrest

theorem classify_p1_iff (vuln : List (Option Feature)) :
    classify vuln = ("P1", "Sev-1")
      ↔ ∃ f, some f ∈ vuln ∧ (f.Severity = "Critical" ∨ f.Severity = "Defcon1") := by
  have hne : (("P2", "Sev-2") : String × String) ≠ ("P1", "Sev-1") := by decide
  unfold classify
  constructor
  · intro h
    split at h
    · rename_i hany
      obtain ⟨x, hx, hp⟩ := List.any_eq_true.mp hany
      cases x with
      | none => simp at hp
      | some f => exact ⟨f, hx, by simpa using hp⟩
    · exact absurd h hne
  · rintro ⟨f, hf, hs⟩
    have hany : (vuln.any (fun x => match x with
        | some f => decide (f.Severity = "Critical" ∨ f.Severity = "Defcon1")
        | none => false)) = true :=
      List.any_eq_true.mpr ⟨some f, hf, by simpa using hs⟩
    rw [if_pos hany]

theorem classify_two_values (vuln : List (Option Feature)) :
    classify vuln = ("P1", "Sev-1") ∨ classify vuln = ("P2", "Sev-2") := by
  unfold classify
  split
  · exact Or.inl rfl
  · exact Or.inr rfl

theorem classify_p2_iff (vuln : List (Option Feature)) :
    classify vuln = ("P2", "Sev-2")
      ↔ ¬ ∃ f, some f ∈ vuln ∧ (f.Severity = "Critical" ∨ f.Severity = "Defcon1") := by
  have hne : (("P1", "Sev-1") : String × String) ≠ ("P2", "Sev-2") := by decide
  rw [← classify_p1_iff]
  constructor
  · intro h h1
    rw [h1] at h
    exact hne h
  · intro h
    rcases classify_two_values vuln with h1 | h1
    · exact absurd h1 h
    · exact h1

theorem classify_cons_other (f : Feature) (rest : List (Option Feature))
    (hf : ¬ (f.Severity = "Critical" ∨ f.Severity = "Defcon1")) :
    classify (some f :: rest) = classify rest := by
  rcases classify_two_values rest with h | h
  · rw [h]
    obtain ⟨g, hg, hs⟩ := (classify_p1_iff rest).mp h
    exact (classify_p1_iff _).mpr ⟨g, List.mem_cons_of_mem _ hg, hs⟩
  · rw [h]
    refine (classify_p2_iff _).mpr ?_
    rintro ⟨g, hg, hs⟩
    rcases List.mem_cons.mp hg with h' | h'
    · have : g = f := (Option.some.inj h')
      rw [this] at hs
      exact hf hs
    · exact (classify_p2_iff rest).mp h ⟨g, h', hs⟩

/-- On a safe list the scan ends normally with the classification; on any
other list it dereferences a nil pointer. -/
theorem severityScan_eq (vuln : List (Option Feature)) :
    severityScan vuln = if scanSafe vuln = true then some (classify vuln) else none := by
  induction vuln with
  | nil => rfl
  | cons x rest ih =>
    cases x with
    | none => rfl
    | some f =>
      by_cases hf : f.Severity = "Critical" ∨ f.Severity = "Defcon1"
      · have hc : classify (some f :: rest) = ("P1", "Sev-1") :=
          (classify_p1_iff _).mpr ⟨f, List.mem_cons_self _ _, hf⟩
        simp only [severityScan, scanSafe, if_pos hf, hc]
        rfl
      · simp only [severityScan, scanSafe, if_neg hf, ih, classify_cons_other f rest hf]

/-! ## Lemmas on the loops of `reportClairFindings` -/

/-- One round of the inner loop when the identifier has a separator and the
feature list is safe: `Report` is called with the fresh ticket, whatever the
variable held before. -/
theorem loopBody_safe {W : Type} (flags : Flags) (klarReport : KlarReport)
    (repositoryTeams repositoryAssignees : GoMap) (n : String) (r : Reporter W)
    (pkg : String) (vuln : List (Option Feature)) (st : RunState W)
    (h : '/' ∈ klarReport.Repo.data) (hsafe : scanSafe vuln = true) :
    loopBody flags klarReport repositoryTeams repositoryAssignees n r pkg vuln st
      = .done
        { jiraTicket := freshTicket flags repositoryTeams repositoryAssignees
            (repoKey klarReport.Repo) pkg vuln
          world := (invoke n r (freshTicket flags repositoryTeams repositoryAssignees
            (repoKey klarReport.Repo) pkg vuln) (st.world, st.log)).1
          log := (invoke n r (freshTicket flags repositoryTeams repositoryAssignees
            (repoKey klarReport.Repo) pkg vuln) (st.world, st.log)).2 } := by
  have hs := SplitN_slash_index klarReport.Repo
  rw [if_pos h] at hs
  have hscan := severityScan_eq vuln
  rw [if_pos hsafe] at hscan
  unfold loopBody
  rw [hs]
  simp only [hscan, resolve_eq]
  rcases hcl : classify vuln with ⟨p, q⟩
  have hfresh : freshTicket flags repositoryTeams repositoryAssignees
      (repoKey klarReport.Repo) pkg vuln
      = { Repo := repoKey klarReport.Repo, Package := pkg, Description := featuresToJSON vuln,
          DevTeam := resolve repositoryTeams (repoKey klarReport.Repo) flags.defaultTeam,
          Assignee := resolve repositoryAssignees (repoKey klarReport.Repo)
            flags.defaultAssignee,
          Priority := p, Severity := q, Version := flags.defaultVersion } := by
    simp only [freshTicket, hcl]
  rw [hfresh]
  simp only [invoke]
  rcases hr : r.Report
      { Repo := repoKey klarReport.Repo, Package := pkg, Description := featuresToJSON vuln,
        DevTeam := resolve repositoryTeams (repoKey klarReport.Repo) flags.defaultTeam,
        Assignee := resolve repositoryAssignees (repoKey klarReport.Repo)
          flags.defaultAssignee,
        Priority := p, Severity := q, Version := flags.defaultVersion } st.world
    with ⟨res, w⟩
  cases res with
  | none => simp [failLine]
  | some err => simp [failLine]

/-- One round of the inner loop when the identifier has a separator and the
feature list is not safe: the nil dereference, before any call. -/
theorem loopBody_nilScan {W : Type} (flags : Flags) (klarReport : KlarReport)
    (repositoryTeams repositoryAssignees : GoMap) (n : String) (r : Reporter W)
    (pkg : String) (vuln : List (Option Feature)) (st : RunState W)
    (h : '/' ∈ klarReport.Repo.data) (hsafe : scanSafe vuln = false) :
    loopBody flags klarReport repositoryTeams repositoryAssignees n r pkg vuln st
      = .panic .nilDereference
        { jiraTicket := { st.jiraTicket with Repo := repoKey klarReport.Repo, Package := pkg }
          world := st.world
          log := st.log } := by
  have hs := SplitN_slash_index klarReport.Repo
  rw [if_pos h] at hs
  have hscan := severityScan_eq vuln
  rw [if_neg (by rw [hsafe]; decide)] at hscan
  unfold loopBody
  rw [hs]
  simp only [hscan]

theorem loopBody_nosep {W : Type} (flags : Flags) (klarReport : KlarReport)
    (repositoryTeams repositoryAssignees : GoMap) (n : String) (r : Reporter W)
    (pkg : String) (vuln : List (Option Feature)) (st : RunState W)
    (h : '/' ∉ klarReport.Repo.data) :
    loopBody flags klarReport repositoryTeams repositoryAssignees n r pkg vuln st
      = .panic .indexOutOfRange st := by
  have hs := SplitN_slash_index klarReport.Repo
  rw [if_neg h] at hs
  unfold loopBody
  rw [hs]

theorem invokeAll_append {W : Type} (a b : List (String × Reporter W × JiraTicket))
    (s : W × List String) : invokeAll (a ++ b) s = invokeAll b (invokeAll a s) := by
  induction a generalizing s with
  | nil => rfl
  | cons x rest ih =>
    obtain ⟨n, r, t⟩ := x
    show invokeAll (rest ++ b) (invoke n r t s) = invokeAll b (invokeAll rest (invoke n r t s))
    exact ih _

theorem invocations_append {W : Type} (flags : Flags)
    (repositoryTeams repositoryAssignees : GoMap) (repo : String)
    (a b : List (String × Reporter W × String × List (Option Feature))) :
    invocations flags repositoryTeams repositoryAssignees repo (a ++ b)
      = if a.all (fun x => scanSafe x.2.2.2) = true
        then invocations flags repositoryTeams repositoryAssignees repo a
          ++ invocations flags repositoryTeams repositoryAssignees repo b
        else invocations flags repositoryTeams repositoryAssignees repo a := by
  induction a with
  | nil => simp [invocations]
  | cons x rest ih =>
    by_cases hx : scanSafe x.2.2.2 = true
    · have ih' := ih
      simp only [invocations] at ih' ⊢
      simp only [List.cons_append, List.takeWhile_cons, hx, if_true, List.map_cons,
        List.all_cons, Bool.true_and, ih']
      split <;> simp
    · have hx' : scanSafe x.2.2.2 = false := by simpa using hx
      simp [invocations, List.takeWhile_cons, hx']

theorem invocations_all_safe {W : Type} (flags : Flags)
    (repositoryTeams repositoryAssignees : GoMap) (repo : String)
    (rounds : List (String × Reporter W × String × List (Option Feature)))
    (h : ∀ x ∈ rounds, scanSafe x.2.2.2 = true) :
    invocations flags repositoryTeams repositoryAssignees repo rounds
      = rounds.map (fun x => (x.1, x.2.1,
          freshTicket flags repositoryTeams repositoryAssignees repo x.2.2.1 x.2.2.2)) := by
  have htake : rounds.takeWhile (fun x => scanSafe x.2.2.2) = rounds := by
    induction rounds with
    | nil => rfl
    | cons x rest ih =>
      have hx := h x (List.mem_cons_self _ _)
      simp only [List.takeWhile_cons, hx, if_true]
      rw [ih (fun y hy => h y (List.mem_cons_of_mem _ hy))]
  simp only [invocations, htake]

theorem invocations_cons_safe {W : Type} (flags : Flags)
    (repositoryTeams repositoryAssignees : GoMap) (repo : String)
    (x : String × Reporter W × String × List (Option Feature))
    (rest : List (String × Reporter W × String × List (Option Feature)))
    (hx : scanSafe x.2.2.2 = true) :
    invocations flags repositoryTeams repositoryAssignees repo (x :: rest)
      = (x.1, x.2.1, freshTicket flags repositoryTeams repositoryAssignees repo x.2.2.1 x.2.2.2)
        :: invocations flags repositoryTeams repositoryAssignees repo rest := by
  simp only [invocations, List.takeWhile_cons, hx, if_true, List.map_cons]

theorem invocations_cons_nilScan {W : Type} (flags : Flags)
    (repositoryTeams repositoryAssignees : GoMap) (repo : String)
    (x : String × Reporter W × String × List (Option Feature))
    (rest : List (String × Reporter W × String × List (Option Feature)))
    (hx : scanSafe x.2.2.2 = false) :
    invocations flags repositoryTeams repositoryAssignees repo (x :: rest) = [] := by
  simp [invocations, List.takeWhile_cons, hx]

/-- The inner loop when the identifier has a separator: the calls of its safe
rounds, in order, up to the first round that is not safe. -/
theorem packageLoop_spec {W : Type} (flags : Flags) (klarReport : KlarReport)
    (repositoryTeams repositoryAssignees : GoMap) (n : String) (r : Reporter W)
    (h : '/' ∈ klarReport.Repo.data) (entries : List (String × List (Option Feature)))
    (st : RunState W) :
    ∃ t, packageLoop flags klarReport repositoryTeams repositoryAssignees n r entries st
      = endWith ((entries.map (fun e => (n, r, e.1, e.2))).all (fun x => scanSafe x.2.2.2))
        { jiraTicket := t
          world := (invokeAll (invocations flags repositoryTeams repositoryAssignees
            (repoKey klarReport.Repo) (entries.map (fun e => (n, r, e.1, e.2))))
            (st.world, st.log)).1
          log := (invokeAll (invocations flags repositoryTeams repositoryAssignees
            (repoKey klarReport.Repo) (entries.map (fun e => (n, r, e.1, e.2))))
            (st.world, st.log)).2 } := by
  induction entries generalizing st with
  | nil => exact ⟨st.jiraTicket, rfl⟩
  | cons e rest ih =>
    obtain ⟨pkg, vuln⟩ := e
    by_cases hsafe : scanSafe vuln = true
    · have hb := loopBody_safe flags klarReport repositoryTeams repositoryAssignees n r pkg
        vuln st h hsafe
      obtain ⟨t, ht⟩ := ih
        { jiraTicket := freshTicket flags repositoryTeams repositoryAssignees
            (repoKey klarReport.Repo) pkg vuln
          world := (invoke n r (freshTicket flags repositoryTeams repositoryAssignees
            (repoKey klarReport.Repo) pkg vuln) (st.world, st.log)).1
          log := (invoke n r (freshTicket flags repositoryTeams repositoryAssignees
            (repoKey klarReport.Repo) pkg vuln) (st.world, st.log)).2 }
      refine ⟨t, ?_⟩
      simp only [packageLoop, hb, ht, List.map_cons, List.all_cons, hsafe, Bool.true_and]
      rw [invocations_cons_safe flags repositoryTeams repositoryAssignees
        (repoKey klarReport.Repo) (n, r, pkg, vuln) _ hsafe]
      rfl
    · have hsafe' : scanSafe vuln = false := by simpa using hsafe
      have hb := loopBody_nilScan flags klarReport repositoryTeams repositoryAssignees n r pkg
        vuln st h hsafe'
      refine ⟨{ st.jiraTicket with Repo := repoKey klarReport.Repo, Package := pkg }, ?_⟩
      simp only [packageLoop, hb, List.map_cons, List.all_cons, hsafe', Bool.false_and]
      rw [invocations_cons_nilScan flags repositoryTeams repositoryAssignees
        (repoKey klarReport.Repo) (n, r, pkg, vuln) _ hsafe']
      rfl

theorem plan_cons {W : Type} (order : RangeOrder)
    (vulnerabilities : List (String × List (Option Feature))) (i : Nat) (n : String)
    (r : Reporter W) (rest : List (String × Reporter W)) :
    plan order vulnerabilities i ((n, r) :: rest)
      = (order i vulnerabilities).map (fun e => (n, r, e.1, e.2))
        ++ plan order vulnerabilities (i + 1) rest := by
  simp only [plan, List.enumFrom_cons, List.flatMap_cons]

/-- The two loops when the identifier has a separator: the calls of the safe
rounds, in order, up to the first round that is not safe. -/
theorem reporterLoop_spec {W : Type} (flags : Flags) (order : RangeOrder)
    (klarReport : KlarReport) (repositoryTeams repositoryAssignees : GoMap)
    (h : '/' ∈ klarReport.Repo.data) (reporters : List (String × Reporter W)) (i : Nat)
    (st : RunState W) :
    ∃ t, reporterLoop flags order klarReport repositoryTeams repositoryAssignees i reporters st
      = endWith ((plan order klarReport.Vulnerabilities i reporters).all
          (fun x => scanSafe x.2.2.2))
        { jiraTicket := t
          world := (invokeAll (invocations flags repositoryTeams repositoryAssignees
            (repoKey klarReport.Repo) (plan order klarReport.Vulnerabilities i reporters))
            (st.world, st.log)).1
          log := (invokeAll (invocations flags repositoryTeams repositoryAssignees
            (repoKey klarReport.Repo) (plan order klarReport.Vulnerabilities i reporters))
            (st.world, st.log)).2 } := by
  induction reporters generalizing i st with
  | nil => exact ⟨st.jiraTicket, rfl⟩
  | cons nr rest ih =>
    obtain ⟨n, r⟩ := nr
    obtain ⟨t1, h1⟩ := packageLoop_spec flags klarReport repositoryTeams repositoryAssignees
      n r h (order i klarReport.Vulnerabilities) st
    rw [plan_cons, invocations_append, List.all_append]
    by_cases hall : ((order i klarReport.Vulnerabilities).map
        (fun e => (n, r, e.1, e.2))).all (fun x => scanSafe x.2.2.2) = true
    · rw [hall] at h1
      obtain ⟨t, ht⟩ := ih (i + 1)
        { jiraTicket := t1
          world := (invokeAll (invocations flags repositoryTeams repositoryAssignees
            (repoKey klarReport.Repo) ((order i klarReport.Vulnerabilities).map
              (fun e => (n, r, e.1, e.2)))) (st.world, st.log)).1
          log := (invokeAll (invocations flags repositoryTeams repositoryAssignees
            (repoKey klarReport.Repo) ((order i klarReport.Vulnerabilities).map
              (fun e => (n, r, e.1, e.2)))) (st.world, st.log)).2 }
      refine ⟨t, ?_⟩
      simp only [reporterLoop, h1, endWith, if_true, hall, Bool.true_and, invokeAll_append]
      exact ht
    · have hall' : ((order i klarReport.Vulnerabilities).map
          (fun e => (n, r, e.1, e.2))).all (fun x => scanSafe x.2.2.2) = false :=
        Bool.eq_false_iff.mpr hall
      rw [hall'] at h1
      refine ⟨t1, ?_⟩
      simp only [reporterLoop, h1, endWith, hall', Bool.false_and]
      rfl

/-- The run when the identifier has a separator: the calls of the safe rounds,
in order, up to the first round that is not safe, applied to the world and the
log of the preamble. -/
theorem reportClairFindings_spec {W : Type} (flags : Flags) (order : RangeOrder)
    (file : ReportFile) (repositoryTeams repositoryAssignees : GoMap)
    (reporters : List (String × Reporter W)) (world : W)
    (h : '/' ∈ file.klarReport.Repo.data) :
    ∃ t, reportClairFindings flags order file repositoryTeams repositoryAssignees reporters world
      = endWith ((plan order file.klarReport.Vulnerabilities 0 reporters).all
          (fun x => scanSafe x.2.2.2))
        { jiraTicket := t
          world := (invokeAll (invocations flags repositoryTeams repositoryAssignees
            (repoKey file.klarReport.Repo)
            (plan order file.klarReport.Vulnerabilities 0 reporters))
            (world, preambleLog file)).1
          log := (invokeAll (invocations flags repositoryTeams repositoryAssignees
            (repoKey file.klarReport.Repo)
            (plan order file.klarReport.Vulnerabilities 0 reporters))
            (world, preambleLog file)).2 } :=
  reporterLoop_spec flags order file.klarReport repositoryTeams repositoryAssignees h
    reporters 0 { jiraTicket := JiraTicket.zero, world := world, log := preambleLog file }

theorem packageLoop_nosep {W : Type} (flags : Flags) (klarReport : KlarReport)
    (repositoryTeams repositoryAssignees : GoMap) (n : String) (r : Reporter W)
    (h : '/' ∉ klarReport.Repo.data) (entries : List (String × List (Option Feature)))
    (st : RunState W) :
    packageLoop flags klarReport repositoryTeams repositoryAssignees n r entries st
      = if entries.length = 0 then .done st else .panic .indexOutOfRange st := by
  cases entries with
  | nil => rfl
  | cons e rest =>
    obtain ⟨pkg, vuln⟩ := e
    simp only [packageLoop, loopBody_nosep flags klarReport repositoryTeams repositoryAssignees
      n r pkg vuln st h]
    simp

theorem reporterLoop_nosep {W : Type} (flags : Flags) (order : RangeOrder)
    (klarReport : KlarReport) (repositoryTeams repositoryAssignees : GoMap)
    (horder : order.Valid) (h : '/' ∉ klarReport.Repo.data)
    (reporters : List (String × Reporter W)) (i : Nat) (st : RunState W) :
    reporterLoop flags order klarReport repositoryTeams repositoryAssignees i reporters st
      = if reporters.length = 0 ∨ klarReport.Vulnerabilities.length = 0 then .done st
        else .panic .indexOutOfRange st := by
  induction reporters generalizing i with
  | nil => simp [reporterLoop]
  | cons nr rest ih =>
    obtain ⟨n, r⟩ := nr
    have hp := packageLoop_nosep flags klarReport repositoryTeams repositoryAssignees n r h
      (order i klarReport.Vulnerabilities) st
    have hlen := (horder i klarReport.Vulnerabilities).length_eq
    rw [hlen] at hp
    by_cases hv : klarReport.Vulnerabilities.length = 0
    · rw [if_pos hv] at hp
      simp only [reporterLoop, hp]
      rw [ih (i + 1)]
      simp [hv]
    · rw [if_neg hv] at hp
      simp only [reporterLoop, hp]
      simp [hv]

theorem invoke_fst {W : Type} (n : String) (r : Reporter W) (ticket : JiraTicket)
    (s : W × List String) : (invoke n r ticket s).1 = (r.Report ticket s.1).2 := rfl

theorem invoke_snd {W : Type} (n : String) (r : Reporter W) (ticket : JiraTicket)
    (s : W × List String) :
    (invoke n r ticket s).2 = s.2 ++ failLine n (r.Report ticket s.1).1 := rfl

/-- The state of a safe round, read off the outcome. -/
theorem loopBody_safe_state {W : Type} (flags : Flags) (klarReport : KlarReport)
    (repositoryTeams repositoryAssignees : GoMap) (n : String) (r : Reporter W)
    (pkg : String) (vuln : List (Option Feature)) (st : RunState W)
    (h : '/' ∈ klarReport.Repo.data) (hsafe : scanSafe vuln = true) :
    (loopBody flags klarReport repositoryTeams repositoryAssignees n r pkg vuln st).panicked
        = false
      ∧ (loopBody flags klarReport repositoryTeams repositoryAssignees n r pkg vuln
          st).state.jiraTicket
        = freshTicket flags repositoryTeams repositoryAssignees (repoKey klarReport.Repo) pkg vuln
      ∧ (loopBody flags klarReport repositoryTeams repositoryAssignees n r pkg vuln
          st).state.world
        = (r.Report (loopBody flags klarReport repositoryTeams repositoryAssignees n r pkg vuln
            st).state.jiraTicket st.world).2
      ∧ (loopBody flags klarReport repositoryTeams repositoryAssignees n r pkg vuln
          st).state.log
        = st.log ++ failLine n (r.Report (loopBody flags klarReport repositoryTeams
            repositoryAssignees n r pkg vuln st).state.jiraTicket st.world).1 := by
  rw [loopBody_safe flags klarReport repositoryTeams repositoryAssignees n r pkg vuln st h
    hsafe]
  exact ⟨rfl, rfl, rfl, rfl⟩

theorem plan_mem {W : Type} (order : RangeOrder)
    (vulnerabilities : List (String × List (Option Feature)))
    (reporters : List (String × Reporter W)) (i : Nat)
    (x : String × Reporter W × String × List (Option Feature))
    (hx : x ∈ plan order vulnerabilities i reporters) :
    (x.1, x.2.1) ∈ reporters ∧ ∃ j, (x.2.2.1, x.2.2.2) ∈ order j vulnerabilities := by
  induction reporters generalizing i with
  | nil => simp [plan] at hx
  | cons nr rest ih =>
    obtain ⟨n, r⟩ := nr
    rw [plan_cons] at hx
    rcases List.mem_append.mp hx with h | h
    · obtain ⟨e, he, hxe⟩ := List.mem_map.mp h
      rw [← hxe]
      exact ⟨List.mem_cons_self _ _, i, he⟩
    · obtain ⟨h1, h2⟩ := ih (i + 1) h
      exact ⟨List.mem_cons_of_mem _ h1, h2⟩

theorem plan_safe {W : Type} (order : RangeOrder) (horder : order.Valid)
    (vulnerabilities : List (String × List (Option Feature)))
    (hsafe : ∀ e ∈ vulnerabilities, scanSafe e.2 = true)
    (reporters : List (String × Reporter W)) (i : Nat) :
    ∀ x ∈ plan order vulnerabilities i reporters, scanSafe x.2.2.2 = true := by
  intro x hx
  obtain ⟨_, j, hj⟩ := plan_mem order vulnerabilities reporters i x hx
  exact hsafe _ ((horder j vulnerabilities).subset hj)

theorem plan_perm {W : Type} (order : RangeOrder) (horder : order.Valid)
    (vulnerabilities : List (String × List (Option Feature)))
    (reporters : List (String × Reporter W)) (i : Nat) :
    (plan order vulnerabilities i reporters).Perm
      (reporters.flatMap (fun nr => vulnerabilities.map (fun e => (nr.1, nr.2, e.1, e.2)))) := by
  induction reporters generalizing i with
  | nil => simp [plan]
  | cons nr rest ih =>
    obtain ⟨n, r⟩ := nr
    rw [plan_cons, List.flatMap_cons]
    exact List.Perm.append ((horder i vulnerabilities).map _) (ih (i + 1))

theorem length_pairs {W : Type} (vulnerabilities : List (String × List (Option Feature)))
    (reporters : List (String × Reporter W)) :
    (reporters.flatMap (fun nr =>
        vulnerabilities.map (fun e => (nr.1, nr.2, e.1, e.2)))).length
      = reporters.length * vulnerabilities.length := by
  induction reporters with
  | nil => simp
  | cons nr rest ih =>
    simp only [List.flatMap_cons, List.length_append, List.length_map, ih, List.length_cons]
    ring

theorem mem_invocations {W : Type} (flags : Flags)
    (repositoryTeams repositoryAssignees : GoMap) (repo : String)
    (rounds : List (String × Reporter W × String × List (Option Feature)))
    (x : String × Reporter W × JiraTicket)
    (hx : x ∈ invocations flags repositoryTeams repositoryAssignees repo rounds) :
    ∃ y ∈ rounds, scanSafe y.2.2.2 = true
      ∧ x = (y.1, y.2.1,
          freshTicket flags repositoryTeams repositoryAssignees repo y.2.2.1 y.2.2.2) := by
  induction rounds with
  | nil => simp [invocations] at hx
  | cons y rest ih =>
    by_cases hy : scanSafe y.2.2.2 = true
    · rw [invocations_cons_safe flags repositoryTeams repositoryAssignees repo y rest hy] at hx
      rcases List.mem_cons.mp hx with h | h
      · exact ⟨y, List.mem_cons_self _ _, hy, h⟩
      · obtain ⟨z, hz, hzs, hxz⟩ := ih h
        exact ⟨z, List.mem_cons_of_mem _ hz, hzs, hxz⟩
    · have hy' : scanSafe y.2.2.2 = false := Bool.eq_false_iff.mpr hy
      rw [invocations_cons_nilScan flags repositoryTeams repositoryAssignees repo y rest hy']
        at hx
      simp at hx

/-- The world of recording reporters after a list of calls: the calls are
appended in order. -/
theorem invokeAll_recorders
    (invs : List (String × Reporter (List (String × JiraTicket)) × JiraTicket))
    (h : ∀ x ∈ invs, ∃ result, x.2.1 = recorder x.1 result)
    (s : List (String × JiraTicket) × List String) :
    (invokeAll invs s).1 = s.1 ++ invs.map (fun x => (x.1, x.2.2)) := by
  induction invs generalizing s with
  | nil => simp [invokeAll]
  | cons x rest ih =>
    obtain ⟨n, r, t⟩ := x
    obtain ⟨result, hr⟩ := h (n, r, t) (List.mem_cons_self _ _)
    have hr' : r = recorder n result := hr
    have hstep : (invoke n r t s).1 = s.1 ++ [(n, t)] := by
      rw [hr']
      rfl
    show (invokeAll rest (invoke n r t s)).1 = _
    rw [ih (fun y hy => h y (List.mem_cons_of_mem _ hy)), hstep]
    simp

/-! ## Lemmas on splitting a joined description -/

theorem Clean.tail {x : Char} {l : List Char} (h : Clean (x :: l)) : Clean l := by
  cases l with
  | nil => trivial
  | cons y rest => exact h.2

theorem Clean.append {a b : List Char} (ha : Clean a) (hb : Clean b) : Clean (a ++ b) := by
  induction a with
  | nil => exact hb
  | cons x a' ih =>
    cases a' with
    | nil =>
      cases b with
      | nil => exact ha
      | cons y rest =>
        have hx : x ≠ '\\' := ha
        exact ⟨fun h => hx h.1, hb⟩
    | cons y rest => exact ⟨ha.1, ih ha.2⟩

theorem Clean.not_prefix {x : Char} {a : List Char} (rest : List Char) (h : Clean (x :: a)) :
    List.isPrefixOf ['\\', '\\'] (x :: (a ++ '\\' :: '\\' :: rest)) = false := by
  cases a with
  | nil =>
    have hx : x ≠ '\\' := h
    have hx' : ¬ '\\' = x := fun e => hx e.symm
    simp [List.isPrefixOf, hx']
  | cons y a' =>
    have hxy : ¬ (x = '\\' ∧ y = '\\') := h.1
    by_cases h1 : '\\' = x
    · have h2 : ¬ '\\' = y := fun e => hxy ⟨h1.symm, e.symm⟩
      simp [List.isPrefixOf, h2]
    · simp [List.isPrefixOf, h1]

theorem Clean.not_prefix_self {x : Char} {a : List Char} (h : Clean (x :: a)) :
    List.isPrefixOf ['\\', '\\'] (x :: a) = false := by
  cases a with
  | nil => simp [List.isPrefixOf]
  | cons y a' =>
    have hxy : ¬ (x = '\\' ∧ y = '\\') := h.1
    by_cases h1 : '\\' = x
    · have h2 : ¬ '\\' = y := fun e => hxy ⟨h1.symm, e.symm⟩
      simp [List.isPrefixOf, h2]
    · simp [List.isPrefixOf, h1]

theorem cutAt_cons (sep : List Char) (c : Char) (cs : List Char) :
    cutAt sep (c :: cs)
      = if sep.isPrefixOf (c :: cs) then some ([], (c :: cs).drop sep.length)
        else match cutAt sep cs with
          | none => none
          | some (a, b) => some (c :: a, b) := rfl

theorem cutAt_clean_sep (a rest : List Char) (h : Clean a) :
    cutAt ['\\', '\\'] (a ++ '\\' :: '\\' :: rest) = some (a, rest) := by
  induction a with
  | nil => simp [cutAt, List.isPrefixOf]
  | cons x a' ih =>
    have hp := Clean.not_prefix rest h
    rw [List.cons_append, cutAt_cons, hp, ih h.tail]
    rfl

theorem cutAt_clean (a : List Char) (h : Clean a) : cutAt ['\\', '\\'] a = none := by
  induction a with
  | nil => simp [cutAt]
  | cons x a' ih =>
    have hp := Clean.not_prefix_self h
    rw [cutAt_cons, hp, ih h.tail]
    rfl

/-- The characters of `strings.Join` with the two-backslash separator. -/
theorem Join_data_cons (a b : String) (rest : List String) :
    (Join (a :: b :: rest) "\\\\").data
      = a.data ++ '\\' :: '\\' :: (Join (b :: rest) "\\\\").data := by
  simp only [Join, String.data_append]
  simp

theorem countLoop_join (f : String) (rest : List String)
    (hclean : ∀ g ∈ f :: rest, Clean g.data) (fuel : Nat) (hfuel : rest.length ≤ fuel) :
    countLoop ['\\', '\\'] fuel (Join (f :: rest) "\\\\").data = rest.length := by
  induction rest generalizing f fuel with
  | nil =>
    have hf : Clean f.data := hclean f (List.mem_cons_self _ _)
    cases fuel with
    | zero => rfl
    | succ k =>
      simp only [Join, countLoop, cutAt_clean f.data hf]
      rfl
  | cons g rest' ih =>
    have hf : Clean f.data := hclean f (List.mem_cons_self _ _)
    cases fuel with
    | zero => simp at hfuel
    | succ k =>
      have hk : rest'.length ≤ k := by simpa using hfuel
      rw [Join_data_cons]
      simp only [countLoop, cutAt_clean_sep f.data _ hf]
      rw [ih g (fun x hx => hclean x (List.mem_cons_of_mem _ hx)) k hk]
      rfl

theorem splitLoop_join (f : String) (rest : List String)
    (hclean : ∀ g ∈ f :: rest, Clean g.data) (k : Nat) (hk : rest.length ≤ k) :
    splitLoop ['\\', '\\'] k (Join (f :: rest) "\\\\").data = (f :: rest).map String.data := by
  induction rest generalizing f k with
  | nil =>
    have hf : Clean f.data := hclean f (List.mem_cons_self _ _)
    cases k with
    | zero => rfl
    | succ k =>
      simp only [Join, splitLoop, cutAt_clean f.data hf]
      rfl
  | cons g rest' ih =>
    have hf : Clean f.data := hclean f (List.mem_cons_self _ _)
    cases k with
    | zero => simp at hk
    | succ k =>
      have hk' : rest'.length ≤ k := by simpa using hk
      rw [Join_data_cons]
      simp only [splitLoop, cutAt_clean_sep f.data _ hf]
      rw [ih g (fun x hx => hclean x (List.mem_cons_of_mem _ hx)) k hk']
      rfl

theorem length_le_byteLen (s : List Char) : s.length ≤ byteLen s := by
  induction s with
  | nil => simp [byteLen]
  | cons x xs ih =>
    have h := Char.utf8Size_pos x
    simp only [byteLen, List.map_cons, List.sum_cons, List.length_cons] at ih ⊢
    omega

theorem length_Join (f : String) (rest : List String) :
    rest.length ≤ (Join (f :: rest) "\\\\").data.length := by
  induction rest generalizing f with
  | nil => simp
  | cons g rest' ih =>
    rw [Join_data_cons]
    have := ih g
    simp only [List.length_append, List.length_cons]
    omega

/-- Splitting a join of clean fragments on the two-backslash sequence gives the
fragments back. -/
theorem Split_Join (f : String) (rest : List String)
    (hclean : ∀ g ∈ f :: rest, Clean g.data) :
    Split (Join (f :: rest) "\\\\") "\\\\" = f :: rest := by
  have hlen := length_Join f rest
  have hbyte := length_le_byteLen (Join (f :: rest) "\\\\").data
  have hcount : Count (Join (f :: rest) "\\\\").data ['\\', '\\'] = rest.length := by
    unfold Count
    rw [if_neg (by simp)]
    exact countLoop_join f rest hclean _ hlen
  have hsplit : Split (Join (f :: rest) "\\\\") "\\\\"
      = (genSplit (Join (f :: rest) "\\\\").data ['\\', '\\'] (-1)).map String.mk := rfl
  rw [hsplit]
  unfold genSplit
  rw [if_neg (by decide), if_neg (by simp), hcount]
  simp only [show ((-1 : Int) < 0) = True from by simp, if_true]
  have hk : rest.length ≤ (if byteLen (Join (f :: rest) "\\\\").data + 1 < rest.length + 1
      then byteLen (Join (f :: rest) "\\\\").data + 1 else rest.length + 1) - 1 := by
    split <;> omega
  rw [splitLoop_join f rest hclean _ hk]
  simp [List.map_map, Function.comp_def]

/-! ## Lemmas on the serialization of a feature -/

theorem hexDigit_ne_backslash (n : Nat) : hexDigit n ≠ '\\' := by
  rcases n with _ | _ | _ | _ | _ | _ | _ | _ | _ | _ | _ | _ | _ | _ | _ | _ | n <;>
    simp [hexDigit]

theorem escapeChar_clean (c : Char) (hc : c ≠ '\\') : Clean (escapeChar c) := by
  have h1 := hexDigit_ne_backslash (c.toNat / 16)
  have h2 := hexDigit_ne_backslash (c.toNat % 16)
  unfold escapeChar
  rw [if_neg hc]
  split
  · simp [Clean]
  split
  · simp [Clean]
  split
  · simp [Clean]
  split
  · simp [Clean]
  split
  · simp [Clean, h2]
  split
  · simp [Clean, h2]
  · exact hc

theorem escape_clean (s : List Char) (hs : '\\' ∉ s) : Clean (s.flatMap escapeChar) := by
  induction s with
  | nil => trivial
  | cons x xs ih =>
    have hx : x ≠ '\\' := fun e => hs (by simp [e])
    have hxs : '\\' ∉ xs := fun e => hs (List.mem_cons_of_mem _ e)
    rw [List.flatMap_cons]
    exact (escapeChar_clean x hx).append (ih hxs)

theorem encodeString_clean (s : String) (hs : '\\' ∉ s.data) : Clean (encodeString s) := by
  have hq : Clean ['"'] := by simp [Clean]
  have h : encodeString s = ['"'] ++ (s.data.flatMap escapeChar ++ ['"']) := rfl
  rw [h]
  exact hq.append ((escape_clean s.data hs).append hq)

theorem encodeOther_clean (other : List (String × String))
    (h : ∀ kv ∈ other, '\\' ∉ kv.1.data ∧ '\\' ∉ kv.2.data) : Clean (encodeOther other) := by
  induction other with
  | nil => trivial
  | cons kv rest ih =>
    obtain ⟨k, v⟩ := kv
    have hkv := h (k, v) (List.mem_cons_self _ _)
    have hrest := ih (fun x hx => h x (List.mem_cons_of_mem _ hx))
    have hcomma : Clean [','] := by simp [Clean]
    have hcolon : Clean [':'] := by simp [Clean]
    have he : encodeOther ((k, v) :: rest)
        = [','] ++ (encodeString k ++ ([':'] ++ (encodeString v ++ encodeOther rest))) := rfl
    rw [he]
    exact hcomma.append ((encodeString_clean k hkv.1).append
      (hcolon.append ((encodeString_clean v hkv.2).append hrest)))

theorem encodeFeature_clean (f : Feature) (h : f.NoBackslash) :
    Clean (encodeFeature f).data := by
  have h1 : Clean "\x7b\"Name\":".data := by simp [Clean]
  have h2 : Clean ",\"Severity\":".data := by simp [Clean]
  have h3 : Clean ['\x7d'] := by simp [Clean]
  unfold encodeFeature
  exact ((((h1.append (encodeString_clean f.Name h.1)).append h2).append
    (encodeString_clean f.Severity h.2.1)).append (encodeOther_clean f.Other h.2.2)).append h3

theorem encodePointer_clean (x : Option Feature)
    (h : ∀ f, x = some f → f.NoBackslash) : Clean (encodePointer x).data := by
  cases x with
  | none => simp [encodePointer, Clean]
  | some f => exact encodeFeature_clean f (h f rfl)

theorem featuresJSONLoop_eq (features : List (Option Feature)) (acc : List String) :
    featuresJSONLoop features acc = acc ++ features.map encodePointer := by
  induction features generalizing acc with
  | nil => simp [featuresJSONLoop]
  | cons f rest ih =>
    simp only [featuresJSONLoop, jsonMarshal, ih, List.map_cons, List.append_assoc,
      List.singleton_append]

theorem loadTeamConfig_opened (teamConfigFilePath : String)
    (osOpen : String → Except String TeamFile) (file : TeamFile)
    (hpath : teamConfigFilePath ≠ "") (hopen : osOpen teamConfigFilePath = .ok file) :
    (loadTeamConfig teamConfigFilePath osOpen).1
      = (match teamLoop file.teamRepositories ([], []) with
         | none => Loaded.panic
         | some (repositoryTeams, repositoryAssignees) =>
           Loaded.maps repositoryTeams repositoryAssignees) := by
  unfold loadTeamConfig
  rw [if_neg hpath, hopen]
  simp only
  cases teamLoop file.teamRepositories ([], []) with
  | none => rfl
  | some maps => rfl

/-- The run when the identifier has a separator, read off the outcome. -/
theorem reportClairFindings_state {W : Type} (flags : Flags) (order : RangeOrder)
    (file : ReportFile) (repositoryTeams repositoryAssignees : GoMap)
    (reporters : List (String × Reporter W)) (world : W)
    (h : '/' ∈ file.klarReport.Repo.data) :
    ((reportClairFindings flags order file repositoryTeams repositoryAssignees reporters
          world).state.world,
        (reportClairFindings flags order file repositoryTeams repositoryAssignees reporters
          world).state.log)
        = invokeAll (invocations flags repositoryTeams repositoryAssignees
            (repoKey file.klarReport.Repo)
            (plan order file.klarReport.Vulnerabilities 0 reporters))
          (world, preambleLog file)
      ∧ (reportClairFindings flags order file repositoryTeams repositoryAssignees reporters
          world).cause
        = (if (plan order file.klarReport.Vulnerabilities 0 reporters).all
              (fun x => scanSafe x.2.2.2) = true
           then none else some Cause.nilDereference) := by
  obtain ⟨t, ht⟩ := reportClairFindings_spec flags order file repositoryTeams
    repositoryAssignees reporters world h
  rw [ht]
  cases hall : (plan order file.klarReport.Vulnerabilities 0 reporters).all
      (fun x => scanSafe x.2.2.2) with
  | true => exact ⟨rfl, rfl⟩
  | false => exact ⟨rfl, rfl⟩

theorem cause_none_iff {W : Type} (out : Outcome W) :
    out.cause = none ↔ out.panicked = false := by
  cases out with
  | done st => exact ⟨fun _ => rfl, fun _ => rfl⟩
  | panic c st => exact ⟨fun h => (by cases h), fun h => (by cases h)⟩

theorem plan_recorders (order : RangeOrder)
    (vulnerabilities : List (String × List (Option Feature)))
    (named : List (String × (Nat → JiraTicket → Option String))) (i : Nat)
    (T : String → List (Option Feature) → JiraTicket) :
    (plan order vulnerabilities i (named.map (fun nr => (nr.1, recorder nr.1 nr.2)))).map
        (fun x => (x.1, T x.2.2.1 x.2.2.2))
      = ((named.map Prod.fst).enumFrom i).flatMap (fun jn =>
          (order jn.1 vulnerabilities).map (fun e => (jn.2, T e.1 e.2))) := by
  induction named generalizing i with
  | nil => rfl
  | cons nr rest ih =>
    simp only [List.map_cons, plan_cons, List.map_append, List.map_map, List.enumFrom_cons,
      List.flatMap_cons, ih (i + 1)]
    rfl

/-- The world of recording reporters after a run whose identifier has a
separator: the calls of the run, appended in order. -/
theorem reportClairFindings_recorders (flags : Flags) (order : RangeOrder)
    (file : ReportFile) (repositoryTeams repositoryAssignees : GoMap)
    (named : List (String × (Nat → JiraTicket → Option String)))
    (world : List (String × JiraTicket))
    (h : '/' ∈ file.klarReport.Repo.data) :
    (reportClairFindings flags order file repositoryTeams repositoryAssignees
        (named.map (fun nr => (nr.1, recorder nr.1 nr.2))) world).state.world
      = world ++ (invocations flags repositoryTeams repositoryAssignees
          (repoKey file.klarReport.Repo)
          (plan order file.klarReport.Vulnerabilities 0
            (named.map (fun nr => (nr.1, recorder nr.1 nr.2))))).map
          (fun x => (x.1, x.2.2)) := by
  have hst := (reportClairFindings_state flags order file repositoryTeams repositoryAssignees
    (named.map (fun nr => (nr.1, recorder nr.1 nr.2))) world h).1
  have hw := congrArg Prod.fst hst
  simp only at hw
  rw [hw]
  refine invokeAll_recorders _ ?_ _
  intro x hx
  obtain ⟨y, hy, _, hxy⟩ := mem_invocations _ _ _ _ _ x hx
  obtain ⟨hmem, _⟩ := plan_mem order _ _ 0 y hy
  obtain ⟨nr, _, hnr⟩ := List.mem_map.mp hmem
  have h1 : nr.1 = y.1 := congrArg Prod.fst hnr
  have h2 : recorder nr.1 nr.2 = y.2.1 := congrArg Prod.snd hnr
  rw [hxy]
  exact ⟨nr.2, by rw [← h2, h1]⟩

/-! ## The claims -/

/-- C1, as stated, fails: in the feature list decoded from
`[null, {"Name":"CVE-1","Severity":"Critical"}]` a feature has the severity
`Critical`, yet the scan dereferences the nil pointer in front of it and the
run ends without any ticket. -/
theorem null_before_critical_gives_no_ticket :
    (∃ f, some f ∈ [none, some cve1] ∧ (f.Severity = "Critical" ∨ f.Severity = "Defcon1"))
    ∧ severityScan [none, some cve1] = none
    ∧ (reportClairFindings Flags.default listOrder nullFeatureFile [] []
        [("jira", okReporter)] []).cause = some Cause.nilDereference
    ∧ (reportClairFindings Flags.default listOrder nullFeatureFile [] []
        [("jira", okReporter)] []).state.world = [] :=
  ⟨⟨cve1, by decide, Or.inl rfl⟩, rfl, by decide, by decide⟩

/-- C1, amended: for every feature list in which no null entry comes before
the first feature whose severity is exactly "Critical" or "Defcon1" (so for
every list without null entries), the round hands `Report` a ticket whose
(Priority, Severity) is ("P1", "Sev-1") exactly when some feature of the list,
at any position, has the severity "Critical" or "Defcon1", and ("P2", "Sev-2")
in every other case: the empty list, and lists with other labels only, such as
"High" or "critical". For every other list the scan dereferences a nil pointer
and the round ends the run without calling `Report`. -/
theorem severity_scan_two_tiers {W : Type} (flags : Flags) (klarReport : KlarReport)
    (repositoryTeams repositoryAssignees : GoMap) (n : String) (r : Reporter W)
    (pkg : String) (vuln : List (Option Feature)) (st : RunState W)
    (hsep : '/' ∈ klarReport.Repo.data) :
    (scanSafe vuln = true →
      (loopBody flags klarReport repositoryTeams repositoryAssignees n r pkg vuln
          st).panicked = false
      ∧ (loopBody flags klarReport repositoryTeams repositoryAssignees n r pkg vuln
          st).state.world
        = (r.Report (loopBody flags klarReport repositoryTeams repositoryAssignees n r pkg vuln
            st).state.jiraTicket st.world).2
      ∧ severityScan vuln
        = some ((loopBody flags klarReport repositoryTeams repositoryAssignees n r pkg vuln
              st).state.jiraTicket.Priority,
            (loopBody flags klarReport repositoryTeams repositoryAssignees n r pkg vuln
              st).state.jiraTicket.Severity)
      ∧ (severityScan vuln = some ("P1", "Sev-1")
          ↔ ∃ f, some f ∈ vuln ∧ (f.Severity = "Critical" ∨ f.Severity = "Defcon1"))
      ∧ (severityScan vuln = some ("P2", "Sev-2")
          ↔ ¬ ∃ f, some f ∈ vuln ∧ (f.Severity = "Critical" ∨ f.Severity = "Defcon1")))
    ∧ (scanSafe vuln = false →
      severityScan vuln = none
      ∧ (loopBody flags klarReport repositoryTeams repositoryAssignees n r pkg vuln
          st).cause = some Cause.nilDereference
      ∧ (loopBody flags klarReport repositoryTeams repositoryAssignees n r pkg vuln
          st).state.world = st.world
      ∧ (loopBody flags klarReport repositoryTeams repositoryAssignees n r pkg vuln
          st).state.log = st.log)
    ∧ (none ∉ vuln → scanSafe vuln = true)
    ∧ severityScan [] = some ("P2", "Sev-2")
    ∧ severityScan [some cveHigh, some cveLower] = some ("P2", "Sev-2") := by
  refine ⟨?_, ?_, scanSafe_of_no_nil vuln, rfl, by decide⟩
  · intro hsafe
    have hst := loopBody_safe_state flags klarReport repositoryTeams repositoryAssignees n r pkg
      vuln st hsep hsafe
    have hscan := severityScan_eq vuln
    rw [if_pos hsafe] at hscan
    refine ⟨hst.1, hst.2.2.1, ?_, ?_, ?_⟩
    · rw [hst.2.1, hscan]
      rfl
    · rw [hscan]
      exact Iff.trans ⟨fun e => Option.some.inj e, fun e => by rw [e]⟩ (classify_p1_iff vuln)
    · rw [hscan]
      exact Iff.trans ⟨fun e => Option.some.inj e, fun e => by rw [e]⟩ (classify_p2_iff vuln)
  · intro hsafe
    have hscan := severityScan_eq vuln
    rw [if_neg (by rw [hsafe]; decide)] at hscan
    rw [loopBody_nilScan flags klarReport repositoryTeams repositoryAssignees n r pkg vuln st
      hsep hsafe]
    exact ⟨hscan, rfl, rfl, rfl⟩

/-- Witness of C1, amended: a package whose second feature is `Critical`, in
the report `acme/widgets`. -/
theorem severity_scan_two_tiers_witness :
    '/' ∈ widgetsReport.Repo.data
    ∧ scanSafe [some cveHigh, some cve1] = true
    ∧ severityScan [some cveHigh, some cve1]
      = some ((loopBody Flags.default widgetsReport [] [] "jira" okReporter "libfoo"
            [some cveHigh, some cve1] initialState).state.jiraTicket.Priority,
          (loopBody Flags.default widgetsReport [] [] "jira" okReporter "libfoo"
            [some cveHigh, some cve1] initialState).state.jiraTicket.Severity)
    ∧ severityScan [some cveHigh, some cve1] = some ("P1", "Sev-1") :=
  ⟨by decide, by decide,
   ((severity_scan_two_tiers Flags.default widgetsReport [] [] "jira" okReporter "libfoo"
      [some cveHigh, some cve1] initialState (by decide)).1 (by decide)).2.2.1,
   ((severity_scan_two_tiers Flags.default widgetsReport [] [] "jira" okReporter "libfoo"
      [some cveHigh, some cve1] initialState (by decide)).1 (by decide)).2.2.2.1.mpr
      ⟨cve1, by decide, Or.inl rfl⟩⟩

/-- C2: for every lookup key, mappings and configured defaults, the DevTeam of
the ticket handed to `Report` is the team mapping's value for the key when the
key is present with a non-empty value, and the configured default team when
the key is absent or present with an empty value; the Assignee follows the
same rule with the assignee mapping and the configured default assignee (which
may be empty). -/
theorem ticket_team_and_assignee_resolution {W : Type} (flags : Flags)
    (repositoryTeams repositoryAssignees : GoMap) (ns key : String)
    (others : List (String × List (Option Feature))) (n : String) (r : Reporter W)
    (pkg : String) (vuln : List (Option Feature)) (st : RunState W)
    (hns : '/' ∉ ns.data) (hsafe : scanSafe vuln = true) :
    (∀ v, GoMap.find repositoryTeams key = some v → v ≠ "" →
        (loopBody flags { Repo := ns ++ "/" ++ key, Vulnerabilities := others }
          repositoryTeams repositoryAssignees n r pkg vuln st).state.jiraTicket.DevTeam = v)
    ∧ (GoMap.find repositoryTeams key = none ∨ GoMap.find repositoryTeams key = some "" →
        (loopBody flags { Repo := ns ++ "/" ++ key, Vulnerabilities := others }
          repositoryTeams repositoryAssignees n r pkg vuln st).state.jiraTicket.DevTeam
          = flags.defaultTeam)
    ∧ (∀ v, GoMap.find repositoryAssignees key = some v → v ≠ "" →
        (loopBody flags { Repo := ns ++ "/" ++ key, Vulnerabilities := others }
          repositoryTeams repositoryAssignees n r pkg vuln st).state.jiraTicket.Assignee = v)
    ∧ (GoMap.find repositoryAssignees key = none
          ∨ GoMap.find repositoryAssignees key = some "" →
        (loopBody flags { Repo := ns ++ "/" ++ key, Vulnerabilities := others }
          repositoryTeams repositoryAssignees n r pkg vuln st).state.jiraTicket.Assignee
          = flags.defaultAssignee)
    ∧ (loopBody flags { Repo := ns ++ "/" ++ key, Vulnerabilities := others }
          repositoryTeams repositoryAssignees n r pkg vuln st).panicked = false
    ∧ (loopBody flags { Repo := ns ++ "/" ++ key, Vulnerabilities := others }
          repositoryTeams repositoryAssignees n r pkg vuln st).state.world
        = (r.Report (loopBody flags { Repo := ns ++ "/" ++ key, Vulnerabilities := others }
            repositoryTeams repositoryAssignees n r pkg vuln st).state.jiraTicket st.world).2 := by
  have hsep : '/' ∈ ({ Repo := ns ++ "/" ++ key, Vulnerabilities := others } :
      KlarReport).Repo.data := mem_data_append ns key
  have hst := loopBody_safe_state flags { Repo := ns ++ "/" ++ key, Vulnerabilities := others }
    repositoryTeams repositoryAssignees n r pkg vuln st hsep hsafe
  refine ⟨?_, ?_, ?_, ?_, hst.1, hst.2.2.1⟩ <;> rw [hst.2.1]
  all_goals
    have hkey : repoKey ({ Repo := ns ++ "/" ++ key, Vulnerabilities := others } :
        KlarReport).Repo = key := repoKey_append ns key hns
    rw [hkey]
  · intro v hv hne
    simp [freshTicket, resolve, hv, hne]
  · rintro (h | h) <;> simp [freshTicket, resolve, h]
  · intro v hv hne
    simp [freshTicket, resolve, hv, hne]
  · rintro (h | h) <;> simp [freshTicket, resolve, h]

/-- Witness of C2: the key `widgets` of the report `acme/widgets`, mapped to
the team `Core` and to an empty assignee. -/
theorem ticket_team_and_assignee_resolution_witness :
    '/' ∉ "acme".data
    ∧ scanSafe [some cve1] = true
    ∧ (loopBody Flags.default { Repo := "acme" ++ "/" ++ "widgets", Vulnerabilities := [] }
        [("widgets", "Core")] [("widgets", "")] "jira" okReporter "libfoo" [some cve1]
        initialState).state.jiraTicket.DevTeam = "Core"
    ∧ (loopBody Flags.default { Repo := "acme" ++ "/" ++ "widgets", Vulnerabilities := [] }
        [("widgets", "Core")] [("widgets", "")] "jira" okReporter "libfoo" [some cve1]
        initialState).state.jiraTicket.Assignee = Flags.default.defaultAssignee :=
  ⟨by decide, by decide,
   (ticket_team_and_assignee_resolution Flags.default [("widgets", "Core")] [("widgets", "")]
      "acme" "widgets" [] "jira" okReporter "libfoo" [some cve1] initialState (by decide)
      (by decide)).1 "Core" (by decide) (by decide),
   (ticket_team_and_assignee_resolution Flags.default [("widgets", "Core")] [("widgets", "")]
      "acme" "widgets" [] "jira" okReporter "libfoo" [some cve1] initialState (by decide)
      (by decide)).2.2.2.1 (Or.inr (by decide))⟩

/-- C3: for every repository identifier that contains a "/", the Repo field of
the ticket handed to `Report` and the key under which team and assignee are
looked up are the text after the first "/": "org/app" gives "app", and "a/b/c"
gives "b/c", the later separator being kept. -/
theorem ticket_repo_after_first_separator {W : Type} (flags : Flags) (klarReport : KlarReport)
    (repositoryTeams repositoryAssignees : GoMap) (n : String) (r : Reporter W)
    (pkg : String) (vuln : List (Option Feature)) (st : RunState W) (pre post : String)
    (hpre : '/' ∉ pre.data) (hrepo : klarReport.Repo = pre ++ "/" ++ post)
    (hsafe : scanSafe vuln = true) :
    (SplitN klarReport.Repo "/" 2)[1]? = some post
    ∧ (loopBody flags klarReport repositoryTeams repositoryAssignees n r pkg vuln
        st).state.jiraTicket.Repo = post
    ∧ (loopBody flags klarReport repositoryTeams repositoryAssignees n r pkg vuln
        st).state.jiraTicket.DevTeam
      = (if GoMap.index repositoryTeams post = "" then flags.defaultTeam
         else GoMap.index repositoryTeams post)
    ∧ (loopBody flags klarReport repositoryTeams repositoryAssignees n r pkg vuln
        st).state.jiraTicket.Assignee
      = (if GoMap.index repositoryAssignees post = "" then flags.defaultAssignee
         else GoMap.index repositoryAssignees post)
    ∧ (loopBody flags klarReport repositoryTeams repositoryAssignees n r pkg vuln
        st).panicked = false
    ∧ (loopBody flags klarReport repositoryTeams repositoryAssignees n r pkg vuln
        st).state.world
      = (r.Report (loopBody flags klarReport repositoryTeams repositoryAssignees n r pkg vuln
          st).state.jiraTicket st.world).2
    ∧ (SplitN "org/app" "/" 2)[1]? = some "app"
    ∧ (SplitN "a/b/c" "/" 2)[1]? = some "b/c" := by
  have hsep : '/' ∈ klarReport.Repo.data := by
    rw [hrepo]
    exact mem_data_append pre post
  have hkey : repoKey klarReport.Repo = post := by
    rw [hrepo]
    exact repoKey_append pre post hpre
  have hst := loopBody_safe_state flags klarReport repositoryTeams repositoryAssignees n r pkg
    vuln st hsep hsafe
  refine ⟨?_, ?_, ?_, ?_, hst.1, hst.2.2.1, by decide, by decide⟩
  · rw [SplitN_slash_index, if_pos hsep, hkey]
  · rw [hst.2.1, hkey]
    rfl
  · rw [hst.2.1, hkey, resolve_eq]
    rfl
  · rw [hst.2.1, hkey, resolve_eq]
    rfl

/-- Witness of C3: the identifier `a/b/c`, whose key is `b/c`. -/
theorem ticket_repo_after_first_separator_witness :
    '/' ∉ "a".data
    ∧ ({ Repo := "a/b/c", Vulnerabilities := [] } : KlarReport).Repo = "a" ++ "/" ++ "b/c"
    ∧ scanSafe [some cve1] = true
    ∧ (loopBody Flags.default { Repo := "a/b/c", Vulnerabilities := [] } [("b/c", "Core")] []
        "jira" okReporter "libfoo" [some cve1] initialState).state.jiraTicket.Repo = "b/c" :=
  ⟨by decide, by decide, by decide,
   (ticket_repo_after_first_separator Flags.default { Repo := "a/b/c", Vulnerabilities := [] }
      [("b/c", "Core")] [] "jira" okReporter "libfoo" [some cve1] initialState "a" "b/c"
      (by decide) (by decide) (by decide)).2.1⟩

/-- C4, as stated, fails: the JSON escape of a backslash inside a string field
is the two-backslash sequence itself, so the description of the single feature
named `lib\foo` splits into two fragments, neither of which is the feature's
serialization. -/
theorem split_description_breaks_on_backslash :
    featuresToJSON [some backslashFeature]
      = "\x7b\"Name\":\"lib\\\\foo\",\"Severity\":\"Low\"\x7d"
    ∧ Split (featuresToJSON [some backslashFeature]) "\\\\"
      = ["\x7b\"Name\":\"lib", "foo\",\"Severity\":\"Low\"\x7d"]
    ∧ (Split (featuresToJSON [some backslashFeature]) "\\\\").length
      ≠ [some backslashFeature].length := by
  decide

/-- C4, amended: for every list of N >= 1 features none of whose string fields
contains a backslash character, `featuresToJSON` returns the features' JSON
serializations, in input order, joined by the two-backslash sequence, and
splitting the description on that sequence yields exactly N fragments, the
i-th being the serialization of the i-th feature (`null` for a nil pointer). -/
theorem split_description_roundtrip (features : List (Option Feature))
    (hne : features ≠ []) (hclean : ∀ f, some f ∈ features → f.NoBackslash) :
    featuresToJSON features = Join (features.map encodePointer) "\\\\"
    ∧ Split (featuresToJSON features) "\\\\" = features.map encodePointer
    ∧ (Split (featuresToJSON features) "\\\\").length = features.length := by
  have hjoin : featuresToJSON features = Join (features.map encodePointer) "\\\\" := by
    unfold featuresToJSON
    rw [featuresJSONLoop_eq]
    rfl
  have hsplit : Split (featuresToJSON features) "\\\\" = features.map encodePointer := by
    rw [hjoin]
    cases features with
    | nil => exact absurd rfl hne
    | cons f rest =>
      refine Split_Join (encodePointer f) (rest.map encodePointer) ?_
      intro g hg
      rw [← List.map_cons, List.mem_map] at hg
      obtain ⟨x, hx, hxg⟩ := hg
      rw [← hxg]
      exact encodePointer_clean x (fun f' hf' => hclean f' (by rw [← hf']; exact hx))
  exact ⟨hjoin, hsplit, by rw [hsplit, List.length_map]⟩

/-- Witness of C4, amended: two findings without a backslash. -/
theorem split_description_roundtrip_witness :
    [some cve1, some cveHigh] ≠ []
    ∧ (∀ f, some f ∈ [some cve1, some cveHigh] → f.NoBackslash)
    ∧ Split (featuresToJSON [some cve1, some cveHigh]) "\\\\"
      = [encodeFeature cve1, encodeFeature cveHigh] := by
  have hclean : ∀ f, some f ∈ [some cve1, some cveHigh] → f.NoBackslash := by
    intro f hf
    simp only [List.mem_cons, Option.some.injEq, List.mem_singleton, List.not_mem_nil,
      or_false] at hf
    rcases hf with h | h <;> rw [h] <;> decide
  exact ⟨List.cons_ne_nil _ _, hclean,
    (split_description_roundtrip [some cve1, some cveHigh] (List.cons_ne_nil _ _) hclean).2.1⟩

/-- C5, as stated, fails: for the sequence decoded from
`[{"Repo":"widgets","Team":"Core","Assignee":"alice"},null]` the loop of
`loadTeamConfig` dereferences the nil pointer of the second entry and the call
builds no mapping. -/
theorem loadTeamConfig_null_entry_builds_no_mapping :
    (loadTeamConfig "teams.json" (fun _ => .ok nullEntryFile)).1 = Loaded.panic
    ∧ ¬ ∃ teams assignees : GoMap,
        (loadTeamConfig "teams.json" (fun _ => .ok nullEntryFile)).1
          = Loaded.maps teams assignees := by
  have h : (loadTeamConfig "teams.json" (fun _ => .ok nullEntryFile)).1 = Loaded.panic := rfl
  refine ⟨h, ?_⟩
  rintro ⟨teams, assignees, h'⟩
  rw [h] at h'
  cases h'

/-- C5, amended: for every decoded sequence of team-mapping entries without a
null entry, the two mappings built by `loadTeamConfig` have as keys exactly
the Repo values of the sequence (each once), and for each key the team mapping
holds the Team and the assignee mapping the Assignee of the last entry with
that Repo. -/
theorem loadTeamConfig_last_entry_wins (teamConfigFilePath : String)
    (osOpen : String → Except String TeamFile) (file : TeamFile)
    (entries : List TeamRepositories)
    (hpath : teamConfigFilePath ≠ "") (hopen : osOpen teamConfigFilePath = .ok file)
    (hentries : file.teamRepositories = entries.map some) :
    ∃ teams assignees : GoMap,
      (loadTeamConfig teamConfigFilePath osOpen).1 = Loaded.maps teams assignees
      ∧ (∀ k, k ∈ GoMap.keys teams ↔ ∃ e ∈ entries, e.Repo = k)
      ∧ (∀ k, k ∈ GoMap.keys assignees ↔ ∃ e ∈ entries, e.Repo = k)
      ∧ (GoMap.keys teams).Nodup ∧ (GoMap.keys assignees).Nodup
      ∧ (∀ front e back, entries = front ++ e :: back →
          (∀ e' ∈ back, e'.Repo ≠ e.Repo) →
          GoMap.find teams e.Repo = some e.Team
            ∧ GoMap.find assignees e.Repo = some e.Assignee)
      ∧ (∀ k, GoMap.find teams k
            = (entries.reverse.find? (fun e => e.Repo = k)).map TeamRepositories.Team
          ∧ GoMap.find assignees k
            = (entries.reverse.find? (fun e => e.Repo = k)).map
                TeamRepositories.Assignee) := by
  obtain ⟨t, a, hloop, hft, hfa, hkt, hka, hnt, hna⟩ :=
    teamLoop_some entries [] [] List.nodup_nil List.nodup_nil
  have hload := loadTeamConfig_opened teamConfigFilePath osOpen file hpath hopen
  rw [hentries, hloop] at hload
  refine ⟨t, a, hload, ?_, ?_, hnt, hna, ?_, ?_⟩
  · intro k
    rw [hkt k]
    simp [GoMap.keys]
  · intro k
    rw [hka k]
    simp [GoMap.keys]
  · intro front e back hsplit hback
    have hlast := find_reverse_last front back e hback
    rw [← hsplit] at hlast
    have h1 := hft e.Repo
    have h2 := hfa e.Repo
    rw [hlast] at h1 h2
    exact ⟨h1, h2⟩
  · intro k
    have h1 := hft k
    have h2 := hfa k
    cases hfind : entries.reverse.find? (fun e => decide (e.Repo = k)) with
    | none =>
      rw [hfind] at h1 h2
      exact ⟨h1, h2⟩
    | some e =>
      rw [hfind] at h1 h2
      exact ⟨h1, h2⟩

/-- Witness of C5, amended: a file whose array names the repository `widgets`
twice. -/
theorem loadTeamConfig_last_entry_wins_witness :
    "teams.json" ≠ ""
    ∧ (fun _ => Except.ok duplicateTeamFile : String → Except String TeamFile) "teams.json"
        = .ok duplicateTeamFile
    ∧ duplicateTeamFile.teamRepositories
        = [({ Repo := "widgets", Team := "Core", Assignee := "alice" } : TeamRepositories),
            { Repo := "gadgets", Team := "Tools", Assignee := "carol" },
            { Repo := "widgets", Team := "Platform", Assignee := "bob" },
            { Repo := "gizmos", Team := "Edge", Assignee := "" }].map some
    ∧ ∃ teams assignees : GoMap,
      (loadTeamConfig "teams.json" (fun _ => .ok duplicateTeamFile)).1
        = Loaded.maps teams assignees
      ∧ GoMap.find teams "widgets" = some "Platform"
      ∧ GoMap.find assignees "widgets" = some "bob" := by
  refine ⟨by decide, rfl, rfl, ?_⟩
  obtain ⟨teams, assignees, hload, _, _, _, _, hlast, _⟩ :=
    loadTeamConfig_last_entry_wins "teams.json" (fun _ => .ok duplicateTeamFile)
      duplicateTeamFile
      [{ Repo := "widgets", Team := "Core", Assignee := "alice" },
       { Repo := "gadgets", Team := "Tools", Assignee := "carol" },
       { Repo := "widgets", Team := "Platform", Assignee := "bob" },
       { Repo := "gizmos", Team := "Edge", Assignee := "" }] (by decide) rfl rfl
  refine ⟨teams, assignees, hload, ?_⟩
  exact hlast [{ Repo := "widgets", Team := "Core", Assignee := "alice" },
      { Repo := "gadgets", Team := "Tools", Assignee := "carol" }]
    { Repo := "widgets", Team := "Platform", Assignee := "bob" }
    [{ Repo := "gizmos", Team := "Edge", Assignee := "" }] rfl (by decide)

/-- C6, as stated, fails: the report for `acme/widgets` has a separator, yet
with the feature list decoded from `[null, ...]` the first round dereferences
the nil pointer and the run ends before any of the two reporters is called for
the package. -/
theorem null_feature_ends_run_before_report :
    '/' ∈ nullFeatureFile.klarReport.Repo.data
    ∧ (reportClairFindings Flags.default listOrder nullFeatureFile [] []
        [("jira", okReporter), ("mail", mailReporter)] []).panicked = true
    ∧ (reportClairFindings Flags.default listOrder nullFeatureFile [] []
        [("jira", okReporter), ("mail", mailReporter)] []).state.world = []
    ∧ (reportClairFindings Flags.default listOrder nullFeatureFile [] []
        [("jira", okReporter), ("mail", mailReporter)] []).state.world.length
      ≠ [("jira", okReporter), ("mail", mailReporter)].length
        * nullFeatureFile.klarReport.Vulnerabilities.length :=
  ⟨by decide, by decide, by decide, by decide⟩

/-- C6, amended: for every list of reporters, every report whose repository
identifier has a separator and in none of whose feature lists a null entry
comes before the first "Critical" or "Defcon1" feature, and every behaviour of
the reporters, the run completes and is exactly the sequence of one `Report`
call of each reporter for each package, with the fresh ticket of the package:
reporters times packages calls, whatever they return. A failing call adds a
log line and changes neither the later calls nor their tickets. -/
theorem every_reporter_called_once_per_package {W : Type} (flags : Flags)
    (order : RangeOrder) (file : ReportFile) (repositoryTeams repositoryAssignees : GoMap)
    (reporters : List (String × Reporter W)) (world : W)
    (horder : order.Valid) (hsep : '/' ∈ file.klarReport.Repo.data)
    (hsafe : ∀ e ∈ file.klarReport.Vulnerabilities, scanSafe e.2 = true) :
    (reportClairFindings flags order file repositoryTeams repositoryAssignees reporters
        world).panicked = false
    ∧ ((reportClairFindings flags order file repositoryTeams repositoryAssignees reporters
          world).state.world,
        (reportClairFindings flags order file repositoryTeams repositoryAssignees reporters
          world).state.log)
      = invokeAll ((plan order file.klarReport.Vulnerabilities 0 reporters).map (fun x =>
          (x.1, x.2.1, freshTicket flags repositoryTeams repositoryAssignees
            (repoKey file.klarReport.Repo) x.2.2.1 x.2.2.2)))
        (world, preambleLog file)
    ∧ (plan order file.klarReport.Vulnerabilities 0 reporters).length
      = reporters.length * file.klarReport.Vulnerabilities.length
    ∧ (plan order file.klarReport.Vulnerabilities 0 reporters).Perm
        (reporters.flatMap (fun nr =>
          file.klarReport.Vulnerabilities.map (fun e => (nr.1, nr.2, e.1, e.2))))
    ∧ (∀ (named : List (String × (Nat → JiraTicket → Option String)))
        (calls : List (String × JiraTicket)),
        (reportClairFindings flags order file repositoryTeams repositoryAssignees
            (named.map (fun nr => (nr.1, recorder nr.1 nr.2))) calls).state.world
          = calls ++ (named.map Prod.fst).enum.flatMap (fun jn =>
              (order jn.1 file.klarReport.Vulnerabilities).map (fun e =>
                (jn.2, freshTicket flags repositoryTeams repositoryAssignees
                  (repoKey file.klarReport.Repo) e.1 e.2)))
        ∧ (reportClairFindings flags order file repositoryTeams repositoryAssignees
            (named.map (fun nr => (nr.1, recorder nr.1 nr.2))) calls).state.world.length
          = calls.length + named.length * file.klarReport.Vulnerabilities.length) := by
  have hst := reportClairFindings_state flags order file repositoryTeams repositoryAssignees
    reporters world hsep
  have hall : ∀ (W' : Type) (rs : List (String × Reporter W')),
      ∀ x ∈ plan order file.klarReport.Vulnerabilities 0 rs, scanSafe x.2.2.2 = true :=
    fun W' rs => plan_safe order horder file.klarReport.Vulnerabilities hsafe rs 0
  have hlen : ∀ (W' : Type) (rs : List (String × Reporter W')),
      (plan order file.klarReport.Vulnerabilities 0 rs).length
        = rs.length * file.klarReport.Vulnerabilities.length := by
    intro W' rs
    rw [(plan_perm order horder file.klarReport.Vulnerabilities rs 0).length_eq, length_pairs]
  refine ⟨?_, ?_, hlen W reporters,
    plan_perm order horder file.klarReport.Vulnerabilities reporters 0, ?_⟩
  · rw [← cause_none_iff, hst.2, if_pos (List.all_eq_true.mpr (hall W reporters))]
  · rw [hst.1, invocations_all_safe _ _ _ _ _ (hall W reporters)]
  · intro named calls
    have hrec := reportClairFindings_recorders flags order file repositoryTeams
      repositoryAssignees named calls hsep
    rw [invocations_all_safe _ _ _ _ _ (hall _ _), List.map_map] at hrec
    constructor
    · rw [hrec]
      exact congrArg (fun l => calls ++ l) (plan_recorders order
        file.klarReport.Vulnerabilities named 0
        (fun pkg vuln => freshTicket flags repositoryTeams repositoryAssignees
          (repoKey file.klarReport.Repo) pkg vuln))
    · rw [hrec, List.length_append, List.length_map, hlen, List.length_map]

/-- Witness of C6, amended: two reporters, the first of which always fails,
and the report with two packages: four calls. -/
theorem every_reporter_called_once_per_package_witness :
    RangeOrder.Valid listOrder
    ∧ '/' ∈ twoPackageFile.klarReport.Repo.data
    ∧ (∀ e ∈ twoPackageFile.klarReport.Vulnerabilities, scanSafe e.2 = true)
    ∧ (reportClairFindings Flags.default listOrder twoPackageFile [] []
        [("jira", failingReporter), ("mail", mailReporter)] []).panicked = false
    ∧ (plan listOrder twoPackageFile.klarReport.Vulnerabilities 0
        [("jira", failingReporter), ("mail", mailReporter)]).length = 2 * 2 :=
  ⟨fun _ _ => List.Perm.refl _, by decide, by decide,
   (every_reporter_called_once_per_package Flags.default listOrder twoPackageFile [] []
      [("jira", failingReporter), ("mail", mailReporter)] []
      (fun _ _ => List.Perm.refl _) (by decide) (by decide)).1,
   (every_reporter_called_once_per_package Flags.default listOrder twoPackageFile [] []
      [("jira", failingReporter), ("mail", mailReporter)] []
      (fun _ _ => List.Perm.refl _) (by decide) (by decide)).2.2.1⟩

/-- C7, as stated, fails: a team-config file that opens and whose content is
not JSON yields empty mappings and a nil error, and `main` goes on to file the
ticket of the scenario under the default team. -/
theorem loadTeamConfig_unparseable_not_error :
    garbledTeamFile.unmarshalErr ≠ none
    ∧ (loadTeamConfig "teams.json" garbledOpen).1 = Loaded.maps [] []
    ∧ (main Flags.default "report.json" "teams.json" garbledOpen okRegistry
        (fun _ => .ok widgetsFile) listOrder []).isFatal = false
    ∧ (Exit.world [] (main Flags.default "report.json" "teams.json" garbledOpen okRegistry
        (fun _ => .ok widgetsFile) listOrder [])).map (fun c => (c.1, c.2.DevTeam))
      = [("jira", "Review")] :=
  ⟨by decide, rfl, rfl, by decide⟩

/-- C7, amended: `loadTeamConfig` returns a non-nil error exactly when the
team-config path is missing or the file cannot be opened, and `main` then ends
fatally without a `Report` call. For a file that opens the result is never an
error, whether or not reading or parsing failed: when decoding left no null
entry in the slice it is a nil error with the mappings built from the decoded
entries (empty mappings when nothing was decoded), and when it left a null
entry the call panics. -/
theorem loadTeamConfig_error_iff_missing_or_unopened (teamConfigFilePath : String)
    (osOpen : String → Except String TeamFile) :
    ((∃ err, (loadTeamConfig teamConfigFilePath osOpen).1 = Loaded.error err)
        ↔ teamConfigFilePath = "" ∨ ∃ err, osOpen teamConfigFilePath = .error err)
    ∧ (∀ file, teamConfigFilePath ≠ "" → osOpen teamConfigFilePath = .ok file →
        none ∉ file.teamRepositories →
        ∃ teams assignees : GoMap,
          teamLoop file.teamRepositories ([], []) = some (teams, assignees)
          ∧ (loadTeamConfig teamConfigFilePath osOpen).1 = Loaded.maps teams assignees)
    ∧ (∀ file, teamConfigFilePath ≠ "" → osOpen teamConfigFilePath = .ok file →
        file.teamRepositories = [] →
        (loadTeamConfig teamConfigFilePath osOpen).1 = Loaded.maps [] [])
    ∧ (∀ file, teamConfigFilePath ≠ "" → osOpen teamConfigFilePath = .ok file →
        none ∈ file.teamRepositories →
        (loadTeamConfig teamConfigFilePath osOpen).1 = Loaded.panic)
    ∧ (∀ (W : Type) (flags : Flags) (jsonVulnerabilityReportFilePath : String)
        (makerByName : String → Except String (Maker W))
        (osOpenReport : String → Except String ReportFile) (order : RangeOrder) (world : W),
        (teamConfigFilePath = "" ∨ ∃ err, osOpen teamConfigFilePath = .error err) →
        (main flags jsonVulnerabilityReportFilePath teamConfigFilePath osOpen makerByName
            osOpenReport order world).isFatal = true
          ∧ Exit.world world (main flags jsonVulnerabilityReportFilePath teamConfigFilePath
              osOpen makerByName osOpenReport order world) = world) := by
  have herr : (teamConfigFilePath = "" ∨ ∃ err, osOpen teamConfigFilePath = .error err) →
      ∃ err, (loadTeamConfig teamConfigFilePath osOpen).1 = Loaded.error err := by
    rintro (h | ⟨err, h⟩)
    · exact ⟨_, by rw [loadTeamConfig, if_pos h]⟩
    · by_cases hp : teamConfigFilePath = ""
      · exact ⟨_, by rw [loadTeamConfig, if_pos hp]⟩
      · exact ⟨_, by rw [loadTeamConfig, if_neg hp, h]⟩
  refine ⟨⟨?_, herr⟩, ?_, ?_, ?_, ?_⟩
  · rintro ⟨err, h⟩
    by_cases hp : teamConfigFilePath = ""
    · exact Or.inl hp
    · right
      cases ho : osOpen teamConfigFilePath with
      | error e => exact ⟨e, rfl⟩
      | ok file =>
        rw [loadTeamConfig_opened teamConfigFilePath osOpen file hp ho] at h
        cases hl : teamLoop file.teamRepositories ([], []) with
        | none =>
          rw [hl] at h
          cases h
        | some maps =>
          rw [hl] at h
          cases h
  · intro file hp ho hnone
    obtain ⟨es, hes⟩ := eq_map_some file.teamRepositories hnone
    obtain ⟨t, a, hloop, _⟩ := teamLoop_some es [] [] List.nodup_nil List.nodup_nil
    rw [← hes] at hloop
    refine ⟨t, a, hloop, ?_⟩
    rw [loadTeamConfig_opened teamConfigFilePath osOpen file hp ho, hloop]
  · intro file hp ho hnil
    rw [loadTeamConfig_opened teamConfigFilePath osOpen file hp ho, hnil]
    rfl
  · intro file hp ho hnone
    rw [loadTeamConfig_opened teamConfigFilePath osOpen file hp ho,
      teamLoop_none file.teamRepositories _ hnone]
  · intro W flags reportPath makerByName osOpenReport order world h
    obtain ⟨err, he⟩ := herr h
    unfold main
    by_cases hr : reportPath = ""
    · rw [if_pos hr]
      exact ⟨rfl, rfl⟩
    · rw [if_neg hr, he]
      exact ⟨rfl, rfl⟩

/-- Witness of C7, amended: a file system in which the path of the team
configuration does not open. -/
theorem loadTeamConfig_error_iff_missing_or_unopened_witness :
    (∃ err, (loadTeamConfig "teams.json" (fun _ => .error "no such file or directory")).1
      = Loaded.error err)
    ∧ Exit.world [] (main Flags.default "report.json" "teams.json"
        (fun _ => .error "no such file or directory") okRegistry
        (fun _ => .ok widgetsFile) listOrder []) = [] :=
  ⟨(loadTeamConfig_error_iff_missing_or_unopened "teams.json"
      (fun _ => .error "no such file or directory")).1.mpr (Or.inr ⟨_, rfl⟩),
   ((loadTeamConfig_error_iff_missing_or_unopened "teams.json"
      (fun _ => .error "no such file or directory")).2.2.2.2 _ Flags.default "report.json"
      okRegistry (fun _ => .ok widgetsFile) listOrder [] (Or.inr ⟨_, rfl⟩)).2⟩

/-- C8, as stated, fails: with the mapping whose only entry has repository
`org/app` and team `TeamX`, the report for repository `org/app` is looked up
under `app` and its ticket gets the default team `Review`. -/
theorem org_app_report_gets_default_team :
    teamLoop (orgAppEntries "") ([], []) = some (orgAppTeams, orgAppAssignees "")
    ∧ (reportClairFindings Flags.default listOrder orgAppFile orgAppTeams (orgAppAssignees "")
        [("jira", okReporter)] []).state.world.map (fun c => (c.2.Repo, c.2.DevTeam))
      = [("app", "Review")] :=
  ⟨rfl, by decide⟩

/-- C8, amended: with the mapping whose only entry has repository `org/app`
and team `TeamX`, and the default team `Review`, every ticket handed to
`Report` for a report whose identifier has a separator has DevTeam `TeamX`
when the part of the identifier after the first "/" is `org/app`, and `Review`
otherwise. -/
theorem team_resolution_by_key_after_separator {W : Type}
    (assignee defaultAssignee defaultVersion : String)
    (order : RangeOrder) (file : ReportFile) (reporters : List (String × Reporter W))
    (world : W) (hsep : '/' ∈ file.klarReport.Repo.data) :
    teamLoop (orgAppEntries assignee) ([], []) = some (orgAppTeams, orgAppAssignees assignee)
    ∧ ((reportClairFindings
          { defaultTeam := "Review", defaultAssignee := defaultAssignee,
            defaultVersion := defaultVersion }
          order file orgAppTeams (orgAppAssignees assignee) reporters world).state.world,
        (reportClairFindings
          { defaultTeam := "Review", defaultAssignee := defaultAssignee,
            defaultVersion := defaultVersion }
          order file orgAppTeams (orgAppAssignees assignee) reporters world).state.log)
      = invokeAll (invocations
          { defaultTeam := "Review", defaultAssignee := defaultAssignee,
            defaultVersion := defaultVersion }
          orgAppTeams (orgAppAssignees assignee) (repoKey file.klarReport.Repo)
          (plan order file.klarReport.Vulnerabilities 0 reporters))
        (world, preambleLog file)
    ∧ (∀ x ∈ invocations
          { defaultTeam := "Review", defaultAssignee := defaultAssignee,
            defaultVersion := defaultVersion }
          orgAppTeams (orgAppAssignees assignee) (repoKey file.klarReport.Repo)
          (plan order file.klarReport.Vulnerabilities 0 reporters),
        x.2.2.DevTeam
          = if repoKey file.klarReport.Repo = "org/app" then "TeamX" else "Review")
    ∧ (∀ (named : List (String × (Nat → JiraTicket → Option String))),
        ∀ c ∈ (reportClairFindings
          { defaultTeam := "Review", defaultAssignee := defaultAssignee,
            defaultVersion := defaultVersion }
          order file orgAppTeams (orgAppAssignees assignee)
          (named.map (fun nr => (nr.1, recorder nr.1 nr.2))) []).state.world,
        c.2.DevTeam
          = if repoKey file.klarReport.Repo = "org/app" then "TeamX" else "Review") := by
  have hteam : ∀ pkg vuln, (freshTicket
      { defaultTeam := "Review", defaultAssignee := defaultAssignee,
        defaultVersion := defaultVersion }
      orgAppTeams (orgAppAssignees assignee) (repoKey file.klarReport.Repo) pkg vuln).DevTeam
      = if repoKey file.klarReport.Repo = "org/app" then "TeamX" else "Review" := by
    intro pkg vuln
    simp only [freshTicket, orgAppTeams, resolve, GoMap.find]
    by_cases hk : repoKey file.klarReport.Repo = "org/app"
    · simp [hk]
    · have hk' : ¬ "org/app" = repoKey file.klarReport.Repo := fun e => hk e.symm
      simp [hk, hk']
  have hinv : ∀ (W' : Type) (rs : List (String × Reporter W')),
      ∀ x ∈ invocations
          { defaultTeam := "Review", defaultAssignee := defaultAssignee,
            defaultVersion := defaultVersion }
          orgAppTeams (orgAppAssignees assignee) (repoKey file.klarReport.Repo)
          (plan order file.klarReport.Vulnerabilities 0 rs),
        x.2.2.DevTeam
          = if repoKey file.klarReport.Repo = "org/app" then "TeamX" else "Review" := by
    intro W' rs x hx
    obtain ⟨y, _, _, hxy⟩ := mem_invocations _ _ _ _ _ x hx
    rw [hxy]
    exact hteam _ _
  refine ⟨rfl, (reportClairFindings_state _ order file _ _ reporters world hsep).1,
    hinv W reporters, ?_⟩
  intro named c hc
  rw [reportClairFindings_recorders _ order file _ _ named [] hsep] at hc
  simp only [List.nil_append, List.mem_map] at hc
  obtain ⟨x, hx, hxc⟩ := hc
  rw [← hxc]
  exact hinv _ _ x hx

/-- Witness of C8, amended: the report for `x/org/app` is looked up under
`org/app`. -/
theorem team_resolution_by_key_after_separator_witness :
    '/' ∈ nestedOrgAppFile.klarReport.Repo.data
    ∧ (reportClairFindings
        { defaultTeam := "Review", defaultAssignee := "", defaultVersion := "master" }
        listOrder nestedOrgAppFile orgAppTeams (orgAppAssignees "")
        [("jira", okReporter)] []).state.world.length = 1
    ∧ ∀ c ∈ (reportClairFindings
        { defaultTeam := "Review", defaultAssignee := "", defaultVersion := "master" }
        listOrder nestedOrgAppFile orgAppTeams (orgAppAssignees "")
        [("jira", okReporter)] []).state.world,
      c.2.DevTeam = "TeamX" := by
  refine ⟨by decide, by decide, ?_⟩
  intro c hc
  have h := (team_resolution_by_key_after_separator "" "" "master" listOrder nestedOrgAppFile
    [("jira", okReporter)] [] (by decide)).2.2.2 [("jira", fun _ _ => none)] c hc
  rw [h]
  decide

/-- C9: for every (reporter, package) pair the ticket handed to `Report` is
determined by the package's entry and the configuration alone, whatever the
ticket variable held before the round: Repo is the part of the report's
repository after the first separator, Package the package's key, Description
`featuresToJSON` of its features, DevTeam and Assignee the resolved values for
Repo, Priority and Severity the classification of its features, Version the
configured default version. The run is exactly the sequence of these calls. A
P1 package handled before a P2 package leaves no P1 on the second ticket, and
the end-to-end scenario files exactly one ticket (widgets, libfoo, Core,
alice, P1, Sev-1, master). -/
theorem ticket_fresh_for_every_package {W : Type} (flags : Flags) (order : RangeOrder)
    (file : ReportFile) (repositoryTeams repositoryAssignees : GoMap)
    (reporters : List (String × Reporter W)) (world : W)
    (hsep : '/' ∈ file.klarReport.Repo.data) :
    (∀ (n : String) (r : Reporter W) (pkg : String) (vuln : List (Option Feature))
        (st : RunState W), scanSafe vuln = true →
        loopBody flags file.klarReport repositoryTeams repositoryAssignees n r pkg vuln st
        = .done
          { jiraTicket :=
              { Repo := repoKey file.klarReport.Repo
                Package := pkg
                Description := featuresToJSON vuln
                DevTeam := resolve repositoryTeams (repoKey file.klarReport.Repo)
                  flags.defaultTeam
                Assignee := resolve repositoryAssignees (repoKey file.klarReport.Repo)
                  flags.defaultAssignee
                Priority := (classify vuln).1
                Severity := (classify vuln).2
                Version := flags.defaultVersion }
            world := (r.Report
              { Repo := repoKey file.klarReport.Repo
                Package := pkg
                Description := featuresToJSON vuln
                DevTeam := resolve repositoryTeams (repoKey file.klarReport.Repo)
                  flags.defaultTeam
                Assignee := resolve repositoryAssignees (repoKey file.klarReport.Repo)
                  flags.defaultAssignee
                Priority := (classify vuln).1
                Severity := (classify vuln).2
                Version := flags.defaultVersion } st.world).2
            log := st.log ++ failLine n (r.Report
              { Repo := repoKey file.klarReport.Repo
                Package := pkg
                Description := featuresToJSON vuln
                DevTeam := resolve repositoryTeams (repoKey file.klarReport.Repo)
                  flags.defaultTeam
                Assignee := resolve repositoryAssignees (repoKey file.klarReport.Repo)
                  flags.defaultAssignee
                Priority := (classify vuln).1
                Severity := (classify vuln).2
                Version := flags.defaultVersion } st.world).1 })
    ∧ (∀ (n : String) (r : Reporter W) (pkg : String) (vuln : List (Option Feature))
        (st : RunState W), scanSafe vuln = false →
        (loopBody flags file.klarReport repositoryTeams repositoryAssignees n r pkg vuln
            st).cause = some Cause.nilDereference
        ∧ (loopBody flags file.klarReport repositoryTeams repositoryAssignees n r pkg vuln
            st).state.world = st.world
        ∧ (loopBody flags file.klarReport repositoryTeams repositoryAssignees n r pkg vuln
            st).state.log = st.log)
    ∧ ((reportClairFindings flags order file repositoryTeams repositoryAssignees reporters
          world).state.world,
        (reportClairFindings flags order file repositoryTeams repositoryAssignees reporters
          world).state.log)
      = invokeAll (invocations flags repositoryTeams repositoryAssignees
          (repoKey file.klarReport.Repo)
          (plan order file.klarReport.Vulnerabilities 0 reporters))
        (world, preambleLog file)
    ∧ (reportClairFindings Flags.default listOrder twoPackageFile [] []
          [("jira", okReporter)] []).state.world.map
          (fun c => (c.2.Package, c.2.Priority, c.2.Severity))
        = [("libfoo", "P1", "Sev-1"), ("libbar", "P2", "Sev-2")]
    ∧ (Exit.world [] (main Flags.default "report.json" "teams.json"
          (fun _ => .ok widgetsTeamFile) okRegistry (fun _ => .ok widgetsFile)
          listOrder [])).map
          (fun c => (c.1, c.2.Repo, c.2.Package, c.2.DevTeam, c.2.Assignee, c.2.Priority,
            c.2.Severity, c.2.Version))
        = [("jira", "widgets", "libfoo", "Core", "alice", "P1", "Sev-1", "master")] := by
  refine ⟨?_, ?_, ?_, by decide, by rfl⟩
  · intro n r pkg vuln st hsafe
    exact loopBody_safe flags file.klarReport repositoryTeams repositoryAssignees n r pkg vuln
      st hsep hsafe
  · intro n r pkg vuln st hsafe
    rw [loopBody_nilScan flags file.klarReport repositoryTeams repositoryAssignees n r pkg vuln
      st hsep hsafe]
    exact ⟨rfl, rfl, rfl⟩
  · exact (reportClairFindings_state flags order file repositoryTeams repositoryAssignees
      reporters world hsep).1

/-- Witness of C9: the report with a P1 package before a P2 package; the round
for the second package starts from the first package's ticket and hands
`Report` a P2 ticket. -/
theorem ticket_fresh_for_every_package_witness :
    '/' ∈ twoPackageFile.klarReport.Repo.data
    ∧ scanSafe [some cveHigh] = true
    ∧ (loopBody Flags.default twoPackageFile.klarReport [] [] "jira" okReporter "libbar"
        [some cveHigh]
        { jiraTicket := freshTicket Flags.default [] [] "widgets" "libfoo" [some cve1]
          world := [], log := [] }).state.world.map (fun c => (c.2.Package, c.2.Priority))
      = [("libbar", "P2")] := by
  refine ⟨by decide, by decide, ?_⟩
  rw [(ticket_fresh_for_every_package Flags.default listOrder twoPackageFile [] []
    [("jira", okReporter)] [] (by decide)).1 "jira" okReporter "libbar" [some cveHigh] _
    (by decide)]
  decide

/-- C10: the index-1 access on the result of splitting the repository
identifier at the first "/" is in range whenever the identifier contains a "/"
(the run then never ends by the index panic, and does not fail at all when the
feature lists are safe); for an identifier with no "/" (the empty one
included) the access is out of range, no `Report` call is made, and the run
fails, by the index panic, exactly when there is at least one reporter and at
least one package: with an empty vulnerability mapping the access is never
evaluated and the run completes. -/
theorem split_index_in_range_iff_separator {W : Type} (flags : Flags) (order : RangeOrder)
    (file : ReportFile) (repositoryTeams repositoryAssignees : GoMap)
    (reporters : List (String × Reporter W)) (world : W) (horder : order.Valid) :
    ('/' ∈ file.klarReport.Repo.data →
        (SplitN file.klarReport.Repo "/" 2).length = 2
        ∧ (SplitN file.klarReport.Repo "/" 2)[1]? = some (repoKey file.klarReport.Repo)
        ∧ (reportClairFindings flags order file repositoryTeams repositoryAssignees
            reporters world).cause ≠ some Cause.indexOutOfRange
        ∧ ((∀ e ∈ file.klarReport.Vulnerabilities, scanSafe e.2 = true) →
            (reportClairFindings flags order file repositoryTeams repositoryAssignees
              reporters world).panicked = false))
    ∧ ('/' ∉ file.klarReport.Repo.data →
        (SplitN file.klarReport.Repo "/" 2).length = 1
        ∧ (SplitN file.klarReport.Repo "/" 2)[1]? = none
        ∧ (reportClairFindings flags order file repositoryTeams repositoryAssignees
            reporters world).state.world = world
        ∧ (reportClairFindings flags order file repositoryTeams repositoryAssignees
            reporters world).state.log = preambleLog file
        ∧ ((reportClairFindings flags order file repositoryTeams repositoryAssignees
            reporters world).panicked = true
          ↔ reporters ≠ [] ∧ file.klarReport.Vulnerabilities ≠ [])
        ∧ ((reportClairFindings flags order file repositoryTeams repositoryAssignees
            reporters world).cause = some Cause.indexOutOfRange
          ↔ reporters ≠ [] ∧ file.klarReport.Vulnerabilities ≠ [])
        ∧ (file.klarReport.Vulnerabilities = [] →
            (reportClairFindings flags order file repositoryTeams repositoryAssignees
              reporters world).panicked = false))
    ∧ (SplitN "" "/" 2)[1]? = none := by
  have hsplit : SplitN file.klarReport.Repo "/" 2
      = (genSplit file.klarReport.Repo.data ['/'] 2).map String.mk := rfl
  refine ⟨?_, ?_, by decide⟩
  · intro hsep
    have hst := reportClairFindings_state flags order file repositoryTeams repositoryAssignees
      reporters world hsep
    refine ⟨?_, ?_, ?_, ?_⟩
    · rw [hsplit, genSplit_slash, if_pos hsep]
      rfl
    · rw [SplitN_slash_index, if_pos hsep]
    · rw [hst.2]
      split
      · exact fun e => by cases e
      · exact fun e => by cases e
    · intro hsafe
      rw [← cause_none_iff, hst.2, if_pos (List.all_eq_true.mpr
        (plan_safe order horder file.klarReport.Vulnerabilities hsafe reporters 0))]
  · intro hsep
    have hrun : reportClairFindings flags order file repositoryTeams repositoryAssignees
        reporters world
        = if reporters.length = 0 ∨ file.klarReport.Vulnerabilities.length = 0
          then .done { jiraTicket := JiraTicket.zero, world := world, log := preambleLog file }
          else .panic .indexOutOfRange
            { jiraTicket := JiraTicket.zero, world := world, log := preambleLog file } :=
      reporterLoop_nosep flags order file.klarReport repositoryTeams repositoryAssignees
        horder hsep reporters 0 _
    have hr : reporters.length = 0 ↔ reporters = [] := List.length_eq_zero
    have hv : file.klarReport.Vulnerabilities.length = 0
        ↔ file.klarReport.Vulnerabilities = [] := List.length_eq_zero
    refine ⟨?_, ?_, ?_, ?_, ?_, ?_, ?_⟩
    · rw [hsplit, genSplit_slash, if_neg hsep]
      rfl
    · rw [SplitN_slash_index, if_neg hsep]
    · rw [hrun]
      split <;> rfl
    · rw [hrun]
      split <;> rfl
    · rw [hrun]
      by_cases h1 : reporters.length = 0
      · rw [if_pos (Or.inl h1)]
        simp [hr.mp h1, Outcome.panicked]
      · by_cases h2 : file.klarReport.Vulnerabilities.length = 0
        · rw [if_pos (Or.inr h2)]
          simp [hv.mp h2, Outcome.panicked]
        · rw [if_neg (by tauto)]
          exact ⟨fun _ => ⟨fun e => h1 (hr.mpr e), fun e => h2 (hv.mpr e)⟩, fun _ => rfl⟩
    · rw [hrun]
      by_cases h1 : reporters.length = 0
      · rw [if_pos (Or.inl h1)]
        simp [hr.mp h1, Outcome.cause]
      · by_cases h2 : file.klarReport.Vulnerabilities.length = 0
        · rw [if_pos (Or.inr h2)]
          simp [hv.mp h2, Outcome.cause]
        · rw [if_neg (by tauto)]
          exact ⟨fun _ => ⟨fun e => h1 (hr.mpr e), fun e => h2 (hv.mpr e)⟩, fun _ => rfl⟩
    · intro h2
      rw [hrun, if_pos (Or.inr (hv.mpr h2))]
      rfl

/-- Witness of C10: the report whose identifier was left empty by the decoder,
with one package and one reporter: the run fails before any call. -/
theorem split_index_in_range_iff_separator_witness :
    RangeOrder.Valid listOrder
    ∧ (reportClairFindings Flags.default listOrder untypedRepoFile [] []
        [("jira", okReporter)] []).panicked = true
    ∧ (reportClairFindings Flags.default listOrder untypedRepoFile [] []
        [("jira", okReporter)] []).state.world = [] :=
  ⟨fun _ _ => List.Perm.refl _,
   ((split_index_in_range_iff_separator Flags.default listOrder untypedRepoFile [] []
      [("jira", okReporter)] [] (fun _ _ => List.Perm.refl _)).2.1 (by decide)).2.2.2.2.1.mpr
      ⟨List.cons_ne_nil _ _, List.cons_ne_nil _ _⟩,
   ((split_index_in_range_iff_separator Flags.default listOrder untypedRepoFile [] []
      [("jira", okReporter)] [] (fun _ _ => List.Perm.refl _)).2.1 (by decide)).2.2.1⟩

end ClairReporter
